import Mathlib

/-!
Verification of the RISC-V encode driver of this repository.

The assembler driver is `src/core/operations/RISCVEncode.mjs` (`RISCVEncode.run`),
embedded below as `RISCV.runEnc`.  The instruction codec (`lib/RISCV.mjs`, class
`Instruction`), the hex conversion utility `fromHex` (`lib/Hex.mjs`),
`Utils.strToByteArray`, and the whole disassembler operation are not part of the
provided sources; they are modelled from the specification where needed, and each
such definition is marked `Modelled from the spec:` in its documentation.

JavaScript-specific behaviour is embedded explicitly:
* `String.split(/\n+/)` is `jsSplitNl`;
* the conditional `shift`/`pop` of empty border strings is `jsShiftEmpty`/`jsPopEmpty`;
* a JS value that may be `undefined` (the `bin` property of the ignore-illegal
  fallback object `{hex: "ffffffff"}`) is an `Option String`; template-literal
  interpolation renders `undefined` as the text `"undefined"` (`jsTmpl`) while
  `Array.join` renders it as the empty string (`jsJoinStr`);
* `Math.ceil(Math.log(4*n)/Math.log(16))` is embedded as `Nat.clog 16 (4*n)`,
  which agrees with the IEEE-double computation on all feasible instruction counts;
* `(4*i).toString(16)` is `natToHex`, `padStart` is `jsPadStart`, `trim` is `jsTrim`.
-/

namespace RISCV

/-- Lowercase hex digit character for a value `0 ≤ n ≤ 15` (as produced by
JavaScript `Number.prototype.toString(16)`). -/
def hexChar (n : Nat) : Char :=
  "0123456789abcdef".data.getD n '0'

/-- Digits of `n` in base 16, most significant first, computed with
explicit fuel so that the kernel can evaluate it; any fuel bounding the
digit count from above yields the digits (JS `n.toString(16)`; `0` renders
as `"0"`). -/
def hexDigitsGo (fuel n : Nat) : List Char :=
  match fuel with
  | 0 => []
  | fuel + 1 =>
    if n < 16 then [hexChar n]
    else hexDigitsGo fuel (n / 16) ++ [hexChar (n % 16)]

/-- JS `n.toString(16)` for a non-negative integer. -/
def natToHex (n : Nat) : String :=
  String.mk (hexDigitsGo (n + 1) n)

/-- The number of base-16 digits of `n` (one digit for `0`). -/
def hexLen (n : Nat) : Nat :=
  (hexDigitsGo (n + 1) n).length

/-- The address padding width `Math.ceil(Math.log(m)/Math.log(16))` of
`RISCVEncode.run`, as the exact mathematical ceiling of `log₁₆ m` (shown
equal to `Nat.clog 16 m` below; the IEEE-double computation agrees with the
exact ceiling on all feasible operand sizes). -/
def ceilLog16 (m : Nat) : Nat :=
  if m ≤ 1 then 0 else hexLen (m - 1)

/-- JS `String.prototype.padStart(len, c)`: left-pad to length `len`
(unchanged when already at least that long). -/
def jsPadStart (s : String) (len : Nat) (c : Char) : String :=
  String.mk (List.replicate (len - s.length) c) ++ s

/-- The fixed-width big-endian binary digits of `n` (low `k` bits). -/
def binPad : Nat → Nat → List Char
  | _, 0 => []
  | n, k + 1 => binPad (n / 2) k ++ [if n % 2 = 1 then '1' else '0']

/-- Whitespace predicate for JS `String.prototype.trim`. -/
def jsIsWs (c : Char) : Bool :=
  c = ' ' || c = '\t' || c = '\n' || c = '\r'

/-- JS `String.prototype.trim`. -/
def jsTrim (s : String) : String :=
  String.mk ((((s.data.dropWhile jsIsWs).reverse).dropWhile jsIsWs).reverse)

/-- A JS string value that may also be `undefined` (`none`). -/
abbrev JsStr : Type := Option String

/-- JS template-literal interpolation: `undefined` renders as `"undefined"`. -/
def jsTmpl : JsStr → String
  | some s => s
  | none => "undefined"

/-- Stringification used by JS `Array.prototype.join`: `undefined` renders
as the empty string. -/
def jsJoinStr : JsStr → String
  | some s => s
  | none => ""

/-- JS `Array.prototype.join("\n")` over possibly-`undefined` entries. -/
def jsJoinNl (l : List JsStr) : String :=
  String.intercalate "\n" (l.map jsJoinStr)

/-- Prepend a character to the first segment of a split (opening a new
segment when there is none). -/
def consHead (c : Char) : List (List Char) → List (List Char)
  | [] => [[c]]
  | s :: ss => (c :: s) :: ss

/-- JS `s.split(/\n+/)` on a character list: split at maximal runs of
newline characters; a leading (resp. trailing) run yields one leading
(resp. trailing) empty segment.  A non-separator character joins the first
segment of the remainder's split; a separator followed by more separators
collapses with them. -/
def jsSplitNl : List Char → List (List Char)
  | [] => [[]]
  | [c] => if c = '\n' then [[], []] else [[c]]
  | c :: r :: rs =>
    if c = '\n' then
      if r = '\n' then jsSplitNl (r :: rs) else [] :: jsSplitNl (r :: rs)
    else consHead c (jsSplitNl (r :: rs))

/-- The conditional `insts.shift()` of `RISCVEncode.run`: remove the first
element when it is the empty string. -/
def jsShiftEmpty (l : List String) : List String :=
  match l with
  | [] => []
  | a :: rest => if a = "" then rest else a :: rest

/-- The conditional `insts.pop()` of `RISCVEncode.run`: remove the last
element when it is the empty string. -/
def jsPopEmpty (l : List String) : List String :=
  if l.getLast? = some "" then l.dropLast else l

/-- The instruction-line list of `RISCVEncode.run`: `commands.split(/\n+/)`
followed by the conditional removal of an empty first and last element. -/
def instsOf (commands : String) : List String :=
  jsPopEmpty (jsShiftEmpty ((jsSplitNl commands.data).map String.mk))

/-- Result object of the `Instruction` constructor as used by the driver:
the `hex` and `bin` fields.  `bin` is an `Option` because the driver's
ignore-illegal fallback object `{hex: "ffffffff"}` leaves `bin` undefined. -/
structure InstrVal where
  hex : String
  bin : JsStr
deriving DecidableEq, Repr

/-- An instruction codec as consumed by the driver: the `Instruction`
constructor either yields a value or throws (an error message). -/
def Codec : Type := String → Except String InstrVal

/-- Per-line state the driver keeps for one instruction slot: the encoded
`hex`/`bin` strings and the original source line text. -/
structure EncLine where
  hex : String
  bin : JsStr
  src : String
deriving DecidableEq, Repr

/-- The encoding loop of `RISCVEncode.run` over the instruction lines,
starting at 0-based line index `i`: each line is passed to the codec; on a
codec error, if `ignoreIllegal` is set the fixed fallback `{hex: "ffffffff"}`
(with undefined `bin`) is substituted, otherwise an `OperationError`
`"Error at line ⟨i+1⟩: ⟨message⟩"` is thrown. -/
def encodeLines (codec : Codec) (ignoreIllegal : Bool) :
    Nat → List String → Except String (List EncLine)
  | _, [] => .ok []
  | i, line :: rest =>
    match codec line with
    | .ok v =>
      (encodeLines codec ignoreIllegal (i + 1) rest).map
        (fun ls => ⟨v.hex, v.bin, line⟩ :: ls)
    | .error e =>
      if ignoreIllegal then
        (encodeLines codec ignoreIllegal (i + 1) rest).map
          (fun ls => ⟨"ffffffff", none, line⟩ :: ls)
      else
        .error s!"Error at line {i + 1}: {e}"

/-- The three output modes of the operation's "Output Mode" argument. -/
inductive OutputMode where
  | raw
  | hexString
  | binString
deriving DecidableEq, Repr

/-- One entry pushed onto `ret` by `RISCVEncode.run` in a textual output
mode, for the line with 0-based index `i`; `aL` is the computed address
padding width.  Mirrors the four-way branch on `showAddr`/`showInput`. -/
def instStrOf (mode : OutputMode) (l : EncLine) : JsStr :=
  match mode with
  | .hexString => some l.hex
  | _ => l.bin

def renderLine (mode : OutputMode) (showAddr showInput : Bool) (aL : Nat)
    (i : Nat) (l : EncLine) : JsStr :=
  let instStr : JsStr := instStrOf mode l
  let addrPart : String := "0x" ++ jsPadStart (natToHex (i * 4)) aL '0' ++ ": "
  if showAddr && showInput then
    some (addrPart ++ jsTmpl instStr ++ " [ " ++ jsTrim l.src ++ " ]")
  else if showAddr then
    some (addrPart ++ jsTmpl instStr)
  else if showInput then
    some (jsTmpl instStr ++ " [ " ++ jsTrim l.src ++ " ]")
  else
    instStr

/-- Modelled from the spec: `fromHex` of `lib/Hex.mjs` is not under the
provided sources; per the spec it is the external hex-string → byte-array
conversion utility.  Value of one hex digit character. -/
def hexVal (c : Char) : Nat :=
  if 48 ≤ c.toNat ∧ c.toNat ≤ 57 then c.toNat - 48
  else if 97 ≤ c.toNat ∧ c.toNat ≤ 102 then c.toNat - 87
  else if 65 ≤ c.toNat ∧ c.toNat ≤ 70 then c.toNat - 55
  else 0

/-- Modelled from the spec: `fromHex` of `lib/Hex.mjs` (missing from the
provided sources) converts a hex string to bytes, two digits per byte. -/
def fromHexL : List Char → List Nat
  | a :: b :: rest => (hexVal a * 16 + hexVal b) :: fromHexL rest
  | _ => []

/-- Modelled from the spec: the hex-string → byte-array interface. -/
def fromHex (s : String) : List Nat :=
  fromHexL s.data

/-- Modelled from the spec: `Utils.strToByteArray` (missing from the
provided sources) turns the output string into a byte array; on the ASCII
strings produced here it maps each character to its code. -/
def strToByteArray (s : String) : List Nat :=
  s.data.map Char.toNat

/-- The driver `RISCVEncode.run` (`src/core/operations/RISCVEncode.mjs`),
parameterised by the instruction codec (the `Instruction` constructor with
the ISA argument already applied).  Returns the operation's byte-array
output or throws an `OperationError` message. -/
def runEnc (codec : Codec) (mode : OutputMode)
    (ignoreIllegal showAddr showInput : Bool) (commands : String) :
    Except String (List Nat) :=
  let insts := instsOf commands
  let instNum := insts.length
  let addrLength := ceilLog16 (instNum * 4)
  match encodeLines codec ignoreIllegal 0 insts with
  | .error e => .error e
  | .ok lines =>
    match mode with
    | .raw => .ok ((lines.map (fun l => fromHex l.hex)).flatten)
    | _ =>
      .ok (strToByteArray (jsJoinNl
        ((lines.enum).map (fun p => renderLine mode showAddr showInput addrLength p.1 p.2))))

/-! ## Instruction codec

Modelled from the spec: the class `Instruction` of `lib/RISCV.mjs` is not under
the provided sources.  Per the spec (§3, §4.1, §4.2) it is a pure codec over a
closed opcode table: each entry names a format (R, I, S, B, U, J), opcode and
funct bit patterns; encoding validates operand arity and immediate width and
packs the fields, applying the RISC-V-mandated immediate bit shuffles for the
B and J formats; decoding extracts opcode/funct bits, looks the entry up
unambiguously and un-shuffles and sign-extends the immediate.  The table below
carries the base-integer instructions the spec itself names (the test vector
`addi`, the conditional-branch family, jump-and-link `jalr`/`jal`) together
with one representative of each remaining base format; all are RV32I base
instructions valid at every ISA width, so the ISA-width argument does not
affect them and is not modelled. -/

/-- The six base instruction formats (spec §3, "Instruction Format"). -/
inductive Fmt where
  | R | I | S | B | U | J
deriving DecidableEq, Repr

/-- Modelled from the spec: one opcode-table entry (spec §3, "Opcode Table
Entry"): mnemonic, format, opcode and funct bit patterns. -/
structure Entry where
  mnemonic : String
  fmt : Fmt
  opcode : Nat
  funct3 : Nat
  funct7 : Nat
deriving DecidableEq, Repr

/-- Modelled from the spec: the opcode table (base-integer subset named by
the spec plus one representative per remaining base format). -/
def table : List Entry :=
  [⟨"add", .R, 0x33, 0, 0⟩, ⟨"sub", .R, 0x33, 0, 0x20⟩,
   ⟨"addi", .I, 0x13, 0, 0⟩, ⟨"jalr", .I, 0x67, 0, 0⟩,
   ⟨"sw", .S, 0x23, 2, 0⟩,
   ⟨"beq", .B, 0x63, 0, 0⟩, ⟨"bne", .B, 0x63, 1, 0⟩,
   ⟨"blt", .B, 0x63, 4, 0⟩, ⟨"bge", .B, 0x63, 5, 0⟩,
   ⟨"bltu", .B, 0x63, 6, 0⟩, ⟨"bgeu", .B, 0x63, 7, 0⟩,
   ⟨"lui", .U, 0x37, 0, 0⟩, ⟨"jal", .J, 0x6f, 0, 0⟩]

/-- Parsed operand sets, one shape per format (spec §3, "Instruction
instance": register operands and signed immediate). -/
inductive Operands where
  | R (rd rs1 rs2 : Nat)
  | I (rd rs1 : Nat) (imm : Int)
  | S (rs1 rs2 : Nat) (imm : Int)
  | B (rs1 rs2 : Nat) (imm : Int)
  | U (rd : Nat) (imm : Int)
  | J (rd : Nat) (imm : Int)
deriving DecidableEq, Repr

/-- Modelled from the spec: operand validation (spec §4.2: arity per table
entry, registers 0–31, immediate fits the format's signed bit width; B/J
branch offsets are even since their bit 0 is not encoded). -/
def opsInRange (e : Entry) (ops : Operands) : Bool :=
  match e.fmt, ops with
  | .R, .R rd rs1 rs2 => rd < 32 && rs1 < 32 && rs2 < 32
  | .I, .I rd rs1 imm => rd < 32 && rs1 < 32 && (-2048 ≤ imm && imm < 2048)
  | .S, .S rs1 rs2 imm => rs1 < 32 && rs2 < 32 && (-2048 ≤ imm && imm < 2048)
  | .B, .B rs1 rs2 imm =>
      rs1 < 32 && rs2 < 32 && (-4096 ≤ imm && imm < 4096) && imm % 2 = 0
  | .U, .U rd imm => rd < 32 && (-524288 ≤ imm && imm < 524288)
  | .J, .J rd imm => rd < 32 && (-1048576 ≤ imm && imm < 1048576) && imm % 2 = 0
  | _, _ => false

/-- Two's-complement bits of a signed immediate in width `w`. -/
def immBits (imm : Int) (w : Nat) : Nat :=
  (imm % ((2 : Int) ^ w)).toNat

/-- Sign extension of a `w`-bit field value. -/
def signExt (u : Nat) (w : Nat) : Int :=
  if u < 2 ^ (w - 1) then (u : Int) else (u : Int) - 2 ^ w

/-- R-format packing: `funct7 rs2 rs1 funct3 rd opcode`. -/
def packR (opc f3 f7 rd rs1 rs2 : Nat) : Nat :=
  opc + rd * 128 + f3 * 4096 + rs1 * 32768 + rs2 * 1048576 + f7 * 33554432

/-- I-format packing: `imm[11:0] rs1 funct3 rd opcode`. -/
def packI (opc f3 rd rs1 u : Nat) : Nat :=
  opc + rd * 128 + f3 * 4096 + rs1 * 32768 + u * 1048576

/-- S-format packing: `imm[11:5] rs2 rs1 funct3 imm[4:0] opcode`. -/
def packS (opc f3 rs1 rs2 u : Nat) : Nat :=
  opc + (u % 32) * 128 + f3 * 4096 + rs1 * 32768 + rs2 * 1048576 +
    (u / 32) * 33554432

/-- B-format packing with the mandated immediate shuffle:
`imm[12] imm[10:5] rs2 rs1 funct3 imm[4:1] imm[11] opcode`. -/
def packB (opc f3 rs1 rs2 u : Nat) : Nat :=
  opc + (u / 2048 % 2) * 128 + (u / 2 % 16) * 256 + f3 * 4096 + rs1 * 32768 +
    rs2 * 1048576 + (u / 32 % 64) * 33554432 + (u / 4096) * 2147483648

/-- U-format packing: `imm[31:12] rd opcode`. -/
def packU (opc rd u : Nat) : Nat :=
  opc + rd * 128 + u * 4096

/-- J-format packing with the mandated immediate shuffle:
`imm[20] imm[10:1] imm[11] imm[19:12] rd opcode`. -/
def packJ (opc rd u : Nat) : Nat :=
  opc + rd * 128 + (u / 4096 % 256) * 4096 + (u / 2048 % 2) * 1048576 +
    (u / 2 % 1024) * 2097152 + (u / 1048576) * 2147483648

/-- The packed word for a table entry and matching operand set. -/
def packFor (e : Entry) (ops : Operands) : Nat :=
  match e.fmt, ops with
  | .R, .R rd rs1 rs2 => packR e.opcode e.funct3 e.funct7 rd rs1 rs2
  | .I, .I rd rs1 imm => packI e.opcode e.funct3 rd rs1 (immBits imm 12)
  | .S, .S rs1 rs2 imm => packS e.opcode e.funct3 rs1 rs2 (immBits imm 12)
  | .B, .B rs1 rs2 imm => packB e.opcode e.funct3 rs1 rs2 (immBits imm 13)
  | .U, .U rd imm => packU e.opcode rd (immBits imm 20)
  | .J, .J rd imm => packJ e.opcode rd (immBits imm 21)
  | _, _ => 0

/-- Modelled from the spec: structured encoding (spec §4.2 `encode`):
validate the operand set against the entry, then pack the word. -/
def encodeWord (e : Entry) (ops : Operands) : Option Nat :=
  if opsInRange e ops = true then some (packFor e ops) else none

/-- Opcode field `word[6:0]`. -/
def exOpc (w : Nat) : Nat := w % 128

/-- Destination register field `word[11:7]`. -/
def exRd (w : Nat) : Nat := w / 128 % 32

/-- funct3 field `word[14:12]`. -/
def exF3 (w : Nat) : Nat := w / 4096 % 8

/-- Source register field `word[19:15]`. -/
def exRs1 (w : Nat) : Nat := w / 32768 % 32

/-- Source register field `word[24:20]`. -/
def exRs2 (w : Nat) : Nat := w / 1048576 % 32

/-- funct7 field `word[31:25]`. -/
def exF7 (w : Nat) : Nat := w / 33554432 % 128

/-- I-format immediate bits `word[31:20]`. -/
def exImmI (w : Nat) : Nat := w / 1048576 % 4096

/-- S-format immediate bits, un-shuffled. -/
def exImmS (w : Nat) : Nat := (w / 33554432 % 128) * 32 + w / 128 % 32

/-- B-format immediate bits, un-shuffled. -/
def exImmB (w : Nat) : Nat :=
  (w / 2147483648 % 2) * 4096 + (w / 128 % 2) * 2048 +
    (w / 33554432 % 64) * 32 + (w / 256 % 16) * 2

/-- U-format immediate bits `word[31:12]`. -/
def exImmU (w : Nat) : Nat := w / 4096 % 1048576

/-- J-format immediate bits, un-shuffled. -/
def exImmJ (w : Nat) : Nat :=
  (w / 2147483648 % 2) * 1048576 + (w / 4096 % 256) * 4096 +
    (w / 1048576 % 2) * 2048 + (w / 2097152 % 1024) * 2

/-- Modelled from the spec: decode-direction table lookup (spec §4.1
`lookup_by_bits`): the first entry whose opcode and (where the format uses
them) funct3/funct7 patterns match the extracted bits. -/
def findEntry (opc f3 f7 : Nat) : Option Entry :=
  table.find? (fun e =>
    e.opcode == opc &&
      (match e.fmt with
       | .R => e.funct3 == f3 && e.funct7 == f7
       | .I | .S | .B => e.funct3 == f3
       | .U | .J => true))

/-- Field extraction and immediate un-shuffling for a known table entry
(spec §4.2 `decode`, after the lookup step). -/
def decodeWith (e : Entry) (w : Nat) : String × Operands :=
  match e.fmt with
  | .R => (e.mnemonic, .R (exRd w) (exRs1 w) (exRs2 w))
  | .I => (e.mnemonic, .I (exRd w) (exRs1 w) (signExt (exImmI w) 12))
  | .S => (e.mnemonic, .S (exRs1 w) (exRs2 w) (signExt (exImmS w) 12))
  | .B => (e.mnemonic, .B (exRs1 w) (exRs2 w) (signExt (exImmB w) 13))
  | .U => (e.mnemonic, .U (exRd w) (signExt (exImmU w) 20))
  | .J => (e.mnemonic, .J (exRd w) (signExt (exImmJ w) 21))

/-- Modelled from the spec: structured decoding (spec §4.2 `decode`):
extract the opcode/funct fields, look up the entry, un-shuffle and
sign-extend the immediate. -/
def decodeInst (w : Nat) : Option (String × Operands) :=
  (findEntry (exOpc w) (exF3 w) (exF7 w)).map (fun e => decodeWith e w)

/-! ## Textual instruction parsing (encode direction) -/

/-- Generic character-list splitter: split at every separator character. -/
def splitWhen (p : Char → Bool) : List Char → List (List Char)
  | [] => [[]]
  | c :: rest =>
    if p c then [] :: splitWhen p rest
    else consHead c (splitWhen p rest)

/-- Token separators of one assembly line: blanks, commas and the
parentheses of load/store address syntax. -/
def isSep (c : Char) : Bool :=
  c = ' ' || c = '\t' || c = ',' || c = '(' || c = ')'

/-- The token list of one assembly line. -/
def tokensOf (s : String) : List String :=
  ((splitWhen isSep s.data).filter (· ≠ [])).map String.mk

/-- ASCII lowercase of one character (JS `toLowerCase` on the ASCII range). -/
def lowerCh (c : Char) : Char :=
  if 65 ≤ c.toNat && c.toNat ≤ 90 then Char.ofNat (c.toNat + 32) else c

/-- ASCII lowercase of a string (JS `toLowerCase`). -/
def jsToLower (s : String) : String :=
  String.mk (s.data.map lowerCh)

/-- Decimal digit test. -/
def isDigitCh (c : Char) : Bool := 48 ≤ c.toNat && c.toNat ≤ 57

/-- Hexadecimal digit test. -/
def isHexCh (c : Char) : Bool :=
  isDigitCh c || (97 ≤ c.toNat && c.toNat ≤ 102) || (65 ≤ c.toNat && c.toNat ≤ 70)

/-- Value of a non-empty all-decimal-digit character list. -/
def decVal? (cs : List Char) : Option Nat :=
  if cs ≠ [] && cs.all isDigitCh then
    some (cs.foldl (fun acc c => acc * 10 + (c.toNat - 48)) 0)
  else none

/-- Value of a non-empty all-hex-digit character list. -/
def hexNum? (cs : List Char) : Option Nat :=
  if cs ≠ [] && cs.all isHexCh then
    some (cs.foldl (fun acc c => acc * 16 + hexVal c) 0)
  else none

/-- Modelled from the spec: the ABI register-name table (spec §3, "Register
Reference": a total bijection between ABI names and indices 0–31). -/
def abiNames : List (String × Nat) :=
  [("zero", 0), ("ra", 1), ("sp", 2), ("gp", 3), ("tp", 4),
   ("t0", 5), ("t1", 6), ("t2", 7), ("s0", 8), ("fp", 8), ("s1", 9),
   ("a0", 10), ("a1", 11), ("a2", 12), ("a3", 13), ("a4", 14), ("a5", 15),
   ("a6", 16), ("a7", 17), ("s2", 18), ("s3", 19), ("s4", 20), ("s5", 21),
   ("s6", 22), ("s7", 23), ("s8", 24), ("s9", 25), ("s10", 26), ("s11", 27),
   ("t3", 28), ("t4", 29), ("t5", 30), ("t6", 31)]

/-- Modelled from the spec: register-token parsing (spec §4.1: canonical
numeric names `x0`–`x31` and ABI names; anything else is an
`UnknownRegister` failure). -/
def parseReg (t : String) : Option Nat :=
  match t.data with
  | 'x' :: ds =>
    match decVal? ds with
    | some n => if n < 32 then some n else none
    | none => ((abiNames.find? (fun p => p.1 == t)).map (·.2))
  | _ => ((abiNames.find? (fun p => p.1 == t)).map (·.2))

/-- Modelled from the spec: numeric-literal parsing for immediate operands
(spec §4.3: decimal, possibly negative, or `0x`-prefixed hex). -/
def parseImm (t : String) : Option Int :=
  match t.data with
  | '-' :: ds => (decVal? ds).map (fun n => -(n : Int))
  | '0' :: 'x' :: ds => (hexNum? ds).map (fun n => (n : Int))
  | ds => (decVal? ds).map (fun n => (n : Int))

/-- Modelled from the spec: parsing one assembly line into a table entry and
operand set (spec §4.2: case-insensitive mnemonic lookup, then per-format
operand parsing; `sw rs2, imm(rs1)` uses the load/store address syntax). -/
def parseLine (line : String) : Except String (Entry × Operands) :=
  match tokensOf line with
  | [] => .error "empty instruction"
  | m :: args =>
    match table.find? (fun e => e.mnemonic == jsToLower m) with
    | none => .error s!"unknown instruction {m}"
    | some e =>
      let ops? : Option Operands :=
        match e.fmt, args with
        | .R, [a, b, c] => do
            let rd ← parseReg a
            let rs1 ← parseReg b
            let rs2 ← parseReg c
            pure (.R rd rs1 rs2)
        | .I, [a, b, c] => do
            let rd ← parseReg a
            let rs1 ← parseReg b
            let imm ← parseImm c
            pure (.I rd rs1 imm)
        | .S, [a, b, c] => do
            let rs2 ← parseReg a
            let imm ← parseImm b
            let rs1 ← parseReg c
            pure (.S rs1 rs2 imm)
        | .B, [a, b, c] => do
            let rs1 ← parseReg a
            let rs2 ← parseReg b
            let imm ← parseImm c
            pure (.B rs1 rs2 imm)
        | .U, [a, b] => do
            let rd ← parseReg a
            let imm ← parseImm b
            pure (.U rd imm)
        | .J, [a, b] => do
            let rd ← parseReg a
            let imm ← parseImm b
            pure (.J rd imm)
        | _, _ => none
      match ops? with
      | none => .error s!"invalid operands for {m}"
      | some ops => .ok (e, ops)

/-- The zero-padded 8-digit lowercase hex rendering of a 32-bit word
(the codec's `hex` property). -/
def hex8 (w : Nat) : String := jsPadStart (natToHex w) 8 '0'

/-- The 32-digit binary rendering of a 32-bit word (the codec's `bin`
property). -/
def bin32 (w : Nat) : String := String.mk (binPad w 32)

/-- Modelled from the spec: the `Instruction` constructor of `lib/RISCV.mjs`
(missing from the provided sources): parse the line, validate and encode,
and expose the `hex` and `bin` renderings; any failure throws an
illegal-instruction error.  The construction options only carry the ISA
width, which does not affect the base-integer entries modelled here. -/
def Instruction : Codec := fun line =>
  match parseLine line with
  | .error e => .error e
  | .ok (e, ops) =>
    match encodeWord e ops with
    | some w => .ok ⟨hex8 w, some (bin32 w)⟩
    | none => .error s!"operand out of range in {line}"

/-! ## Disassembler driver

Modelled from the spec: the decode operation is entirely absent from the
provided sources; spec §4.4 and §6 define `decode_program`. -/

/-- Modelled from the spec: the disassembler configuration (spec §6). -/
structure DecodeCfg where
  abi : Bool
  showAddr : Bool
  showRaw : Bool
  immAsHex : Bool
  ignoreIllegal : Bool
deriving DecidableEq, Repr

/-- Modelled from the spec: disassembler-direction errors (spec §7). -/
inductive DisasmError where
  | misalignedInput
  | illegalInstruction (addr : String)
deriving DecidableEq, Repr

/-- The 32-bit words of a byte stream, four little-endian bytes per word
(spec §8: bytes `13 00 00 00` form the word `0x00000013`). -/
def wordsOf : List Nat → List Nat
  | b0 :: b1 :: b2 :: b3 :: rest =>
    (b0 + b1 * 256 + b2 * 65536 + b3 * 16777216) :: wordsOf rest
  | _ => []

/-- Numeric or ABI rendering of a register index (spec §4.2). -/
def regName (abi : Bool) (n : Nat) : String :=
  if abi then ((abiNames.find? (fun p => p.2 == n)).map (·.1)).getD ("x" ++ toString n)
  else "x" ++ toString n

/-- Signed decimal or explicitly signed hex rendering of an immediate
(spec §4.2). -/
def renderImm (asHex : Bool) (imm : Int) : String :=
  if asHex then
    if imm < 0 then "-0x" ++ natToHex (-imm).toNat else "0x" ++ natToHex imm.toNat
  else toString imm

/-- Modelled from the spec: rendering one decoded instruction as a single
assembly line (spec §4.2: no trailing newline). -/
def renderAsm (abi asHex : Bool) (mo : String × Operands) : String :=
  let r := regName abi
  let im := renderImm asHex
  match mo.2 with
  | .R rd rs1 rs2 => mo.1 ++ " " ++ r rd ++ ", " ++ r rs1 ++ ", " ++ r rs2
  | .I rd rs1 imm => mo.1 ++ " " ++ r rd ++ ", " ++ r rs1 ++ ", " ++ im imm
  | .S rs1 rs2 imm => mo.1 ++ " " ++ r rs2 ++ ", " ++ im imm ++ "(" ++ r rs1 ++ ")"
  | .B rs1 rs2 imm => mo.1 ++ " " ++ r rs1 ++ ", " ++ r rs2 ++ ", " ++ im imm
  | .U rd imm => mo.1 ++ " " ++ r rd ++ ", " ++ im imm
  | .J rd imm => mo.1 ++ " " ++ r rd ++ ", " ++ im imm

/-- The configured line decoration: optional zero-padded hex address and
optional raw word hex (spec §4.4), for the slot at index `i`. -/
def decoLine (cfg : DecodeCfg) (aL : Nat) (i : Nat) (w : Nat) (body : String) : String :=
  (if cfg.showAddr then "0x" ++ jsPadStart (natToHex (i * 4)) aL '0' ++ ": " else "") ++
    (if cfg.showRaw then hex8 w ++ " " else "") ++ body

/-- Modelled from the spec: `decode_program` (spec §4.4, §6): the byte count
must be an exact multiple of 4, else `MisalignedInput` with no partial
decode; each 4-byte slot is decoded at address `4 × index`; an unrecognized
pattern propagates `IllegalInstruction` tagged with the hex address, or,
when ignore-illegal is set, becomes the literal `*** illegal instruction ***`
line; lines are newline-joined in address order. -/
def decodeProgram (bytes : List Nat) (cfg : DecodeCfg) : Except DisasmError String :=
  if bytes.length % 4 ≠ 0 then .error .misalignedInput
  else
    let aL := ceilLog16 bytes.length
    ((wordsOf bytes).enum.mapM (fun (p : Nat × Nat) =>
      (match decodeInst p.2 with
      | some mo => .ok (decoLine cfg aL p.1 p.2 (renderAsm cfg.abi cfg.immAsHex mo))
      | none =>
        if cfg.ignoreIllegal then
          .ok (decoLine cfg aL p.1 p.2 "*** illegal instruction ***")
        else
          .error (.illegalInstruction ("0x" ++ jsPadStart (natToHex (p.1 * 4)) aL '0')) :
        Except DisasmError String))).map
      (String.intercalate "\n")

/-! ## Claim theorems -/

/-! ### C1: structured encode/decode round-trip -/

theorem low_extract (small d t : Nat) {w : Nat} (hw : w = small + d * t)
    (hs : small < d) : w % d = small := by
  subst hw
  rw [Nat.add_mul_mod_self_left, Nat.mod_eq_of_lt hs]

theorem field_extract2 (small d v m rest : Nat) {w : Nat}
    (hw : w = small + d * (v + m * rest)) (hs : small < d) (hd : 0 < d)
    (hv : v < m) : w / d % m = v := by
  subst hw
  rw [Nat.add_mul_div_left small _ hd, Nat.div_eq_of_lt hs, Nat.zero_add,
    Nat.add_mul_mod_self_left, Nat.mod_eq_of_lt hv]

theorem signExt_immBits12 (imm : Int) (h1 : -2048 ≤ imm) (h2 : imm < 2048) :
    signExt (immBits imm 12) 12 = imm := by
  unfold signExt immBits
  norm_num
  split <;> omega

theorem immBits12_lt (imm : Int) : immBits imm 12 < 4096 := by
  unfold immBits; norm_num; omega

theorem signExt_immBits13 (imm : Int) (h1 : -4096 ≤ imm) (h2 : imm < 4096) :
    signExt (immBits imm 13) 13 = imm := by
  unfold signExt immBits
  norm_num
  split <;> omega

theorem immBits13_lt (imm : Int) : immBits imm 13 < 8192 := by
  unfold immBits; norm_num; omega

theorem immBits13_even (imm : Int) (h : imm % 2 = 0) : immBits imm 13 % 2 = 0 := by
  unfold immBits; norm_num; omega

theorem signExt_immBits20 (imm : Int) (h1 : -524288 ≤ imm) (h2 : imm < 524288) :
    signExt (immBits imm 20) 20 = imm := by
  unfold signExt immBits
  norm_num
  split <;> omega

theorem immBits20_lt (imm : Int) : immBits imm 20 < 1048576 := by
  unfold immBits; norm_num; omega

theorem signExt_immBits21 (imm : Int) (h1 : -1048576 ≤ imm) (h2 : imm < 1048576) :
    signExt (immBits imm 21) 21 = imm := by
  unfold signExt immBits
  norm_num
  split <;> omega

theorem immBits21_lt (imm : Int) : immBits imm 21 < 2097152 := by
  unfold immBits; norm_num; omega

theorem immBits21_even (imm : Int) (h : imm % 2 = 0) : immBits imm 21 % 2 = 0 := by
  unfold immBits; norm_num; omega

theorem roundR (m : String) (opc f3 f7 : Nat)
    (hfind : findEntry opc f3 f7 = some ⟨m, .R, opc, f3, f7⟩)
    (hopc : opc < 128) (hf3 : f3 < 8) (hf7 : f7 < 128)
    (rd rs1 rs2 : Nat) (h1 : rd < 32) (h2 : rs1 < 32) (h3 : rs2 < 32) :
    decodeInst (packR opc f3 f7 rd rs1 rs2) = some (m, .R rd rs1 rs2) := by
  have hEdef : packR opc f3 f7 rd rs1 rs2 =
      opc + rd * 128 + f3 * 4096 + rs1 * 32768 + rs2 * 1048576 + f7 * 33554432 := rfl
  rw [hEdef]
  set E := opc + rd * 128 + f3 * 4096 + rs1 * 32768 + rs2 * 1048576 + f7 * 33554432 with hE
  have e1 : exOpc E = opc := by
    unfold exOpc
    exact low_extract opc 128 (rd + 32 * f3 + 256 * rs1 + 8192 * rs2 + 262144 * f7)
      (by omega) hopc
  have e2 : exF3 E = f3 := by
    unfold exF3
    exact field_extract2 (opc + rd * 128) 4096 f3 8 (rs1 + rs2 * 32 + f7 * 1024)
      (by omega) (by omega) (by norm_num) hf3
  have e3 : exF7 E = f7 := by
    unfold exF7
    exact field_extract2 (opc + rd * 128 + f3 * 4096 + rs1 * 32768 + rs2 * 1048576)
      33554432 f7 128 0 (by omega) (by omega) (by norm_num) hf7
  have e4 : exRd E = rd := by
    unfold exRd
    exact field_extract2 opc 128 rd 32 (f3 + rs1 * 8 + rs2 * 256 + f7 * 8192)
      (by omega) hopc (by norm_num) h1
  have e5 : exRs1 E = rs1 := by
    unfold exRs1
    exact field_extract2 (opc + rd * 128 + f3 * 4096) 32768 rs1 32 (rs2 + f7 * 32)
      (by omega) (by omega) (by norm_num) h2
  have e6 : exRs2 E = rs2 := by
    unfold exRs2
    exact field_extract2 (opc + rd * 128 + f3 * 4096 + rs1 * 32768) 1048576 rs2 32 f7
      (by omega) (by omega) (by norm_num) h3
  unfold decodeInst
  rw [e1, e2, e3, hfind]
  simp only [Option.map_some']
  unfold decodeWith
  simp only []
  rw [e4, e5, e6]

theorem roundI (m : String) (opc f3 z : Nat)
    (hfind : ∀ g7, findEntry opc f3 g7 = some ⟨m, .I, opc, f3, z⟩)
    (hopc : opc < 128) (hf3 : f3 < 8)
    (rd rs1 : Nat) (imm : Int) (h1 : rd < 32) (h2 : rs1 < 32)
    (h3 : -2048 ≤ imm) (h4 : imm < 2048) :
    decodeInst (packI opc f3 rd rs1 (immBits imm 12)) = some (m, .I rd rs1 imm) := by
  have hu : immBits imm 12 < 4096 := immBits12_lt imm
  set u := immBits imm 12 with hudef
  have hEdef : packI opc f3 rd rs1 u =
      opc + rd * 128 + f3 * 4096 + rs1 * 32768 + u * 1048576 := rfl
  rw [hEdef]
  set E := opc + rd * 128 + f3 * 4096 + rs1 * 32768 + u * 1048576 with hE
  have e1 : exOpc E = opc := by
    unfold exOpc
    exact low_extract opc 128 (rd + 32 * f3 + 256 * rs1 + 8192 * u) (by omega) hopc
  have e2 : exF3 E = f3 := by
    unfold exF3
    exact field_extract2 (opc + rd * 128) 4096 f3 8 (rs1 + u * 32)
      (by omega) (by omega) (by norm_num) hf3
  have e4 : exRd E = rd := by
    unfold exRd
    exact field_extract2 opc 128 rd 32 (f3 + rs1 * 8 + u * 256)
      (by omega) hopc (by norm_num) h1
  have e5 : exRs1 E = rs1 := by
    unfold exRs1
    exact field_extract2 (opc + rd * 128 + f3 * 4096) 32768 rs1 32 u
      (by omega) (by omega) (by norm_num) h2
  have e7 : exImmI E = u := by
    unfold exImmI
    exact field_extract2 (opc + rd * 128 + f3 * 4096 + rs1 * 32768) 1048576 u 4096 0
      (by omega) (by omega) (by norm_num) hu
  unfold decodeInst
  rw [e1, e2, hfind]
  simp only [Option.map_some']
  unfold decodeWith
  simp only []
  rw [e4, e5, e7, hudef, signExt_immBits12 imm h3 h4]

theorem roundS (m : String) (opc f3 z : Nat)
    (hfind : ∀ g7, findEntry opc f3 g7 = some ⟨m, .S, opc, f3, z⟩)
    (hopc : opc < 128) (hf3 : f3 < 8)
    (rs1 rs2 : Nat) (imm : Int) (h1 : rs1 < 32) (h2 : rs2 < 32)
    (h3 : -2048 ≤ imm) (h4 : imm < 2048) :
    decodeInst (packS opc f3 rs1 rs2 (immBits imm 12)) = some (m, .S rs1 rs2 imm) := by
  have hu : immBits imm 12 < 4096 := immBits12_lt imm
  set u := immBits imm 12 with hudef
  obtain ⟨a, b, ha, hb, hab⟩ : ∃ a b, a < 32 ∧ b < 128 ∧ u = a + 32 * b :=
    ⟨u % 32, u / 32, by omega, by omega, by omega⟩
  have hEdef : packS opc f3 rs1 rs2 u =
      opc + a * 128 + f3 * 4096 + rs1 * 32768 + rs2 * 1048576 + b * 33554432 := by
    unfold packS; omega
  rw [hEdef]
  set E := opc + a * 128 + f3 * 4096 + rs1 * 32768 + rs2 * 1048576 + b * 33554432 with hE
  have e1 : exOpc E = opc := by
    unfold exOpc
    exact low_extract opc 128 (a + 32 * f3 + 256 * rs1 + 8192 * rs2 + 262144 * b)
      (by omega) hopc
  have e2 : exF3 E = f3 := by
    unfold exF3
    exact field_extract2 (opc + a * 128) 4096 f3 8 (rs1 + rs2 * 32 + b * 1024)
      (by omega) (by omega) (by norm_num) hf3
  have e5 : exRs1 E = rs1 := by
    unfold exRs1
    exact field_extract2 (opc + a * 128 + f3 * 4096) 32768 rs1 32 (rs2 + b * 32)
      (by omega) (by omega) (by norm_num) h1
  have e6 : exRs2 E = rs2 := by
    unfold exRs2
    exact field_extract2 (opc + a * 128 + f3 * 4096 + rs1 * 32768) 1048576 rs2 32 b
      (by omega) (by omega) (by norm_num) h2
  have e7 : exImmS E = u := by
    unfold exImmS
    have p1 : E / 33554432 % 128 = b :=
      field_extract2 (opc + a * 128 + f3 * 4096 + rs1 * 32768 + rs2 * 1048576)
        33554432 b 128 0 (by omega) (by omega) (by norm_num) hb
    have p2 : E / 128 % 32 = a :=
      field_extract2 opc 128 a 32 (f3 + rs1 * 8 + rs2 * 256 + b * 8192)
        (by omega) hopc (by norm_num) ha
    rw [p1, p2]
    omega
  unfold decodeInst
  rw [e1, e2, hfind]
  simp only [Option.map_some']
  unfold decodeWith
  simp only []
  rw [e5, e6, e7, hudef, signExt_immBits12 imm h3 h4]

theorem roundB (m : String) (opc f3 z : Nat)
    (hfind : ∀ g7, findEntry opc f3 g7 = some ⟨m, .B, opc, f3, z⟩)
    (hopc : opc < 128) (hf3 : f3 < 8)
    (rs1 rs2 : Nat) (imm : Int) (h1 : rs1 < 32) (h2 : rs2 < 32)
    (h3 : -4096 ≤ imm) (h4 : imm < 4096) (h5 : imm % 2 = 0) :
    decodeInst (packB opc f3 rs1 rs2 (immBits imm 13)) = some (m, .B rs1 rs2 imm) := by
  have hu : immBits imm 13 < 8192 := immBits13_lt imm
  have hue : immBits imm 13 % 2 = 0 := immBits13_even imm h5
  set u := immBits imm 13 with hudef
  obtain ⟨p, q, r, s, hp, hq, hr, hs2, hdec⟩ :
      ∃ p q r s, p < 16 ∧ q < 64 ∧ r < 2 ∧ s < 2 ∧
        u = 2 * p + 32 * q + 2048 * r + 4096 * s :=
    ⟨u / 2 % 16, u / 32 % 64, u / 2048 % 2, u / 4096,
     by omega, by omega, by omega, by omega, by omega⟩
  have hEdef : packB opc f3 rs1 rs2 u =
      opc + r * 128 + p * 256 + f3 * 4096 + rs1 * 32768 + rs2 * 1048576 +
        q * 33554432 + s * 2147483648 := by
    unfold packB; omega
  rw [hEdef]
  set E := opc + r * 128 + p * 256 + f3 * 4096 + rs1 * 32768 + rs2 * 1048576 +
    q * 33554432 + s * 2147483648 with hE
  have e1 : exOpc E = opc := by
    unfold exOpc
    exact low_extract opc 128
      (r + 2 * p + 32 * f3 + 256 * rs1 + 8192 * rs2 + 262144 * q + 16777216 * s)
      (by omega) hopc
  have e2 : exF3 E = f3 := by
    unfold exF3
    exact field_extract2 (opc + r * 128 + p * 256) 4096 f3 8
      (rs1 + rs2 * 32 + q * 1024 + s * 65536)
      (by omega) (by omega) (by norm_num) hf3
  have e5 : exRs1 E = rs1 := by
    unfold exRs1
    exact field_extract2 (opc + r * 128 + p * 256 + f3 * 4096) 32768 rs1 32
      (rs2 + q * 32 + s * 2048)
      (by omega) (by omega) (by norm_num) h1
  have e6 : exRs2 E = rs2 := by
    unfold exRs2
    exact field_extract2 (opc + r * 128 + p * 256 + f3 * 4096 + rs1 * 32768)
      1048576 rs2 32 (q + s * 64)
      (by omega) (by omega) (by norm_num) h2
  have e7 : exImmB E = u := by
    unfold exImmB
    have q1 : E / 2147483648 % 2 = s :=
      field_extract2
        (opc + r * 128 + p * 256 + f3 * 4096 + rs1 * 32768 + rs2 * 1048576 + q * 33554432)
        2147483648 s 2 0 (by omega) (by omega) (by norm_num) hs2
    have q2 : E / 128 % 2 = r :=
      field_extract2 opc 128 r 2
        (p + f3 * 16 + rs1 * 128 + rs2 * 4096 + q * 131072 + s * 8388608)
        (by omega) hopc (by norm_num) hr
    have q3 : E / 33554432 % 64 = q :=
      field_extract2 (opc + r * 128 + p * 256 + f3 * 4096 + rs1 * 32768 + rs2 * 1048576)
        33554432 q 64 s (by omega) (by omega) (by norm_num) hq
    have q4 : E / 256 % 16 = p :=
      field_extract2 (opc + r * 128) 256 p 16
        (f3 + rs1 * 8 + rs2 * 256 + q * 8192 + s * 524288)
        (by omega) (by omega) (by norm_num) hp
    rw [q1, q2, q3, q4]
    omega
  unfold decodeInst
  rw [e1, e2, hfind]
  simp only [Option.map_some']
  unfold decodeWith
  simp only []
  rw [e5, e6, e7, hudef, signExt_immBits13 imm h3 h4]

theorem roundU (m : String) (opc y z : Nat)
    (hfind : ∀ g3 g7, findEntry opc g3 g7 = some ⟨m, .U, opc, y, z⟩)
    (hopc : opc < 128)
    (rd : Nat) (imm : Int) (h1 : rd < 32)
    (h3 : -524288 ≤ imm) (h4 : imm < 524288) :
    decodeInst (packU opc rd (immBits imm 20)) = some (m, .U rd imm) := by
  have hu : immBits imm 20 < 1048576 := immBits20_lt imm
  set u := immBits imm 20 with hudef
  have hEdef : packU opc rd u = opc + rd * 128 + u * 4096 := rfl
  rw [hEdef]
  set E := opc + rd * 128 + u * 4096 with hE
  have e1 : exOpc E = opc := by
    unfold exOpc
    exact low_extract opc 128 (rd + 32 * u) (by omega) hopc
  have e4 : exRd E = rd := by
    unfold exRd
    exact field_extract2 opc 128 rd 32 u (by omega) hopc (by norm_num) h1
  have e7 : exImmU E = u := by
    unfold exImmU
    exact field_extract2 (opc + rd * 128) 4096 u 1048576 0
      (by omega) (by omega) (by norm_num) hu
  unfold decodeInst
  rw [e1, hfind]
  simp only [Option.map_some']
  unfold decodeWith
  simp only []
  rw [e4, e7, hudef, signExt_immBits20 imm h3 h4]

theorem roundJ (m : String) (opc y z : Nat)
    (hfind : ∀ g3 g7, findEntry opc g3 g7 = some ⟨m, .J, opc, y, z⟩)
    (hopc : opc < 128)
    (rd : Nat) (imm : Int) (h1 : rd < 32)
    (h3 : -1048576 ≤ imm) (h4 : imm < 1048576) (h5 : imm % 2 = 0) :
    decodeInst (packJ opc rd (immBits imm 21)) = some (m, .J rd imm) := by
  have hu : immBits imm 21 < 2097152 := immBits21_lt imm
  have hue : immBits imm 21 % 2 = 0 := immBits21_even imm h5
  set u := immBits imm 21 with hudef
  obtain ⟨p, q, r, s, hp, hq, hr, hs2, hdec⟩ :
      ∃ p q r s, p < 1024 ∧ q < 2 ∧ r < 256 ∧ s < 2 ∧
        u = 2 * p + 2048 * q + 4096 * r + 1048576 * s :=
    ⟨u / 2 % 1024, u / 2048 % 2, u / 4096 % 256, u / 1048576,
     by omega, by omega, by omega, by omega, by omega⟩
  have hEdef : packJ opc rd u =
      opc + rd * 128 + r * 4096 + q * 1048576 + p * 2097152 + s * 2147483648 := by
    unfold packJ; omega
  rw [hEdef]
  set E := opc + rd * 128 + r * 4096 + q * 1048576 + p * 2097152 + s * 2147483648 with hE
  have e1 : exOpc E = opc := by
    unfold exOpc
    exact low_extract opc 128
      (rd + 32 * r + 8192 * q + 16384 * p + 16777216 * s) (by omega) hopc
  have e4 : exRd E = rd := by
    unfold exRd
    exact field_extract2 opc 128 rd 32 (r + q * 256 + p * 512 + s * 524288)
      (by omega) hopc (by norm_num) h1
  have e7 : exImmJ E = u := by
    unfold exImmJ
    have j1 : E / 2147483648 % 2 = s :=
      field_extract2 (opc + rd * 128 + r * 4096 + q * 1048576 + p * 2097152)
        2147483648 s 2 0 (by omega) (by omega) (by norm_num) hs2
    have j2 : E / 4096 % 256 = r :=
      field_extract2 (opc + rd * 128) 4096 r 256 (q + p * 2 + s * 2048)
        (by omega) (by omega) (by norm_num) hr
    have j3 : E / 1048576 % 2 = q :=
      field_extract2 (opc + rd * 128 + r * 4096) 1048576 q 2 (p + s * 1024)
        (by omega) (by omega) (by norm_num) hq
    have j4 : E / 2097152 % 1024 = p :=
      field_extract2 (opc + rd * 128 + r * 4096 + q * 1048576) 2097152 p 1024 s
        (by omega) (by omega) (by norm_num) hp
    rw [j1, j2, j3, j4]
    omega
  unfold decodeInst
  rw [e1, hfind]
  simp only [Option.map_some']
  unfold decodeWith
  simp only []
  rw [e4, e7, hudef, signExt_immBits21 imm h3 h4]
/-- C1: round-trip of the structured codec — for every table-listed
(non-pseudo) mnemonic and every in-range operand set, decoding the word
produced by encoding yields the same mnemonic and operands (registers are
represented canonically as indices, so "up to canonical register-name form"
is definitional here). -/
theorem C1_encode_decode_roundtrip :
    ∀ e ∈ table, ∀ ops, opsInRange e ops = true →
      ∃ w, encodeWord e ops = some w ∧ decodeInst w = some (e.mnemonic, ops) := by
  intro e he ops hops
  refine ⟨packFor e ops, ?_, ?_⟩
  · unfold encodeWord
    rw [if_pos hops]
  · fin_cases he
    · rcases ops with ⟨rd, rs1, rs2⟩ | ⟨rd, rs1, imm⟩ | ⟨rs1, rs2, imm⟩ |
        ⟨rs1, rs2, imm⟩ | ⟨rd, imm⟩ | ⟨rd, imm⟩ <;> simp [opsInRange] at hops
      exact roundR "add" 51 0 0 rfl (by norm_num) (by norm_num) (by norm_num)
        rd rs1 rs2 (by omega) (by omega) (by omega)
    · rcases ops with ⟨rd, rs1, rs2⟩ | ⟨rd, rs1, imm⟩ | ⟨rs1, rs2, imm⟩ |
        ⟨rs1, rs2, imm⟩ | ⟨rd, imm⟩ | ⟨rd, imm⟩ <;> simp [opsInRange] at hops
      exact roundR "sub" 51 0 32 rfl (by norm_num) (by norm_num) (by norm_num)
        rd rs1 rs2 (by omega) (by omega) (by omega)
    · rcases ops with ⟨rd, rs1, rs2⟩ | ⟨rd, rs1, imm⟩ | ⟨rs1, rs2, imm⟩ |
        ⟨rs1, rs2, imm⟩ | ⟨rd, imm⟩ | ⟨rd, imm⟩ <;> simp [opsInRange] at hops
      exact roundI "addi" 19 0 0 (fun g7 => rfl) (by norm_num) (by norm_num)
        rd rs1 imm (by omega) (by omega) (by omega) (by omega)
    · rcases ops with ⟨rd, rs1, rs2⟩ | ⟨rd, rs1, imm⟩ | ⟨rs1, rs2, imm⟩ |
        ⟨rs1, rs2, imm⟩ | ⟨rd, imm⟩ | ⟨rd, imm⟩ <;> simp [opsInRange] at hops
      exact roundI "jalr" 103 0 0 (fun g7 => rfl) (by norm_num) (by norm_num)
        rd rs1 imm (by omega) (by omega) (by omega) (by omega)
    · rcases ops with ⟨rd, rs1, rs2⟩ | ⟨rd, rs1, imm⟩ | ⟨rs1, rs2, imm⟩ |
        ⟨rs1, rs2, imm⟩ | ⟨rd, imm⟩ | ⟨rd, imm⟩ <;> simp [opsInRange] at hops
      exact roundS "sw" 35 2 0 (fun g7 => rfl) (by norm_num) (by norm_num)
        rs1 rs2 imm (by omega) (by omega) (by omega) (by omega)
    · rcases ops with ⟨rd, rs1, rs2⟩ | ⟨rd, rs1, imm⟩ | ⟨rs1, rs2, imm⟩ |
        ⟨rs1, rs2, imm⟩ | ⟨rd, imm⟩ | ⟨rd, imm⟩ <;> simp [opsInRange] at hops
      exact roundB "beq" 99 0 0 (fun g7 => rfl) (by norm_num) (by norm_num)
        rs1 rs2 imm (by omega) (by omega) (by omega) (by omega) (by omega)
    · rcases ops with ⟨rd, rs1, rs2⟩ | ⟨rd, rs1, imm⟩ | ⟨rs1, rs2, imm⟩ |
        ⟨rs1, rs2, imm⟩ | ⟨rd, imm⟩ | ⟨rd, imm⟩ <;> simp [opsInRange] at hops
      exact roundB "bne" 99 1 0 (fun g7 => rfl) (by norm_num) (by norm_num)
        rs1 rs2 imm (by omega) (by omega) (by omega) (by omega) (by omega)
    · rcases ops with ⟨rd, rs1, rs2⟩ | ⟨rd, rs1, imm⟩ | ⟨rs1, rs2, imm⟩ |
        ⟨rs1, rs2, imm⟩ | ⟨rd, imm⟩ | ⟨rd, imm⟩ <;> simp [opsInRange] at hops
      exact roundB "blt" 99 4 0 (fun g7 => rfl) (by norm_num) (by norm_num)
        rs1 rs2 imm (by omega) (by omega) (by omega) (by omega) (by omega)
    · rcases ops with ⟨rd, rs1, rs2⟩ | ⟨rd, rs1, imm⟩ | ⟨rs1, rs2, imm⟩ |
        ⟨rs1, rs2, imm⟩ | ⟨rd, imm⟩ | ⟨rd, imm⟩ <;> simp [opsInRange] at hops
      exact roundB "bge" 99 5 0 (fun g7 => rfl) (by norm_num) (by norm_num)
        rs1 rs2 imm (by omega) (by omega) (by omega) (by omega) (by omega)
    · rcases ops with ⟨rd, rs1, rs2⟩ | ⟨rd, rs1, imm⟩ | ⟨rs1, rs2, imm⟩ |
        ⟨rs1, rs2, imm⟩ | ⟨rd, imm⟩ | ⟨rd, imm⟩ <;> simp [opsInRange] at hops
      exact roundB "bltu" 99 6 0 (fun g7 => rfl) (by norm_num) (by norm_num)
        rs1 rs2 imm (by omega) (by omega) (by omega) (by omega) (by omega)
    · rcases ops with ⟨rd, rs1, rs2⟩ | ⟨rd, rs1, imm⟩ | ⟨rs1, rs2, imm⟩ |
        ⟨rs1, rs2, imm⟩ | ⟨rd, imm⟩ | ⟨rd, imm⟩ <;> simp [opsInRange] at hops
      exact roundB "bgeu" 99 7 0 (fun g7 => rfl) (by norm_num) (by norm_num)
        rs1 rs2 imm (by omega) (by omega) (by omega) (by omega) (by omega)
    · rcases ops with ⟨rd, rs1, rs2⟩ | ⟨rd, rs1, imm⟩ | ⟨rs1, rs2, imm⟩ |
        ⟨rs1, rs2, imm⟩ | ⟨rd, imm⟩ | ⟨rd, imm⟩ <;> simp [opsInRange] at hops
      exact roundU "lui" 55 0 0 (fun g3 g7 => rfl) (by norm_num)
        rd imm (by omega) (by omega) (by omega)
    · rcases ops with ⟨rd, rs1, rs2⟩ | ⟨rd, rs1, imm⟩ | ⟨rs1, rs2, imm⟩ |
        ⟨rs1, rs2, imm⟩ | ⟨rd, imm⟩ | ⟨rd, imm⟩ <;> simp [opsInRange] at hops
      exact roundJ "jal" 111 0 0 (fun g3 g7 => rfl) (by norm_num)
        rd imm (by omega) (by omega) (by omega) (by omega)
/-- C1 witness: the round-trip at `addi x1, x1, 5`. -/
theorem C1_encode_decode_roundtrip_witness :
    ((⟨"addi", .I, 0x13, 0, 0⟩ : Entry) ∈ table ∧
     opsInRange ⟨"addi", .I, 0x13, 0, 0⟩ (.I 1 1 5) = true) ∧
    ∃ w, encodeWord ⟨"addi", .I, 0x13, 0, 0⟩ (.I 1 1 5) = some w ∧
      decodeInst w = some ("addi", .I 1 1 5) :=
  ⟨⟨by decide, by decide⟩,
   C1_encode_decode_roundtrip ⟨"addi", .I, 0x13, 0, 0⟩ (by decide) (.I 1 1 5) (by decide)⟩

/-- C2: with ignore-illegal set, a line that fails to encode is substituted
by the fixed fill object `{hex: "ffffffff"}`.  The raw-bytes output and the
hex-string line conform to the claim, but the fallback object has no `bin`
property, so in Binary-string mode the driver renders JS `undefined`: the
plain line is empty and the address-prefixed line reads `0x0: undefined` —
not the 32-bit all-ones pattern the claim (and the spec's fill-pattern
sentence) require.  This theorem evaluates the driver at the failing input. -/
theorem C2_binary_mode_fill_bug :
    runEnc Instruction .raw true false false "subi x1, x1, 1" = .ok [255, 255, 255, 255] ∧
    runEnc Instruction .hexString true false false "subi x1, x1, 1" =
      .ok (strToByteArray "ffffffff") ∧
    runEnc Instruction .binString true false false "subi x1, x1, 1" = .ok [] ∧
    runEnc Instruction .binString true true false "subi x1, x1, 1" =
      .ok (strToByteArray "0x0: undefined") := by
  refine ⟨rfl, rfl, rfl, rfl⟩

/-- C5 counterexample: assembling `"loop:\naddi x1, x1, 1\nbeq x1, x2, loop\n"`
does not succeed: the driver has no label pass, so the line `loop:` is handed
to the codec as an instruction and the run aborts at line 1. -/
theorem C5_no_label_support :
    ¬ ∃ bs, runEnc Instruction .raw false false false
        "loop:\naddi x1, x1, 1\nbeq x1, x2, loop\n" = .ok bs := by
  intro h
  rcases h with ⟨bs, h⟩
  rw [show runEnc Instruction .raw false false false
        "loop:\naddi x1, x1, 1\nbeq x1, x2, loop\n" =
      .error "Error at line 1: unknown instruction loop:" from rfl] at h
  exact Except.noConfusion h

/-- C5 amended: assembling that program fails with an error tagged line 1
(the label line is passed to the codec and rejected); with ignore-illegal
set, the label line and the unresolved `beq` line each contribute a
`ffffffff` fill slot around the encoded `addi`, i.e. the label line does
contribute an instruction slot and no `-4` offset is ever produced. -/
theorem C5_label_line_behavior :
    runEnc Instruction .raw false false false
        "loop:\naddi x1, x1, 1\nbeq x1, x2, loop\n" =
      .error "Error at line 1: unknown instruction loop:" ∧
    runEnc Instruction .raw true false false
        "loop:\naddi x1, x1, 1\nbeq x1, x2, loop\n" =
      .ok ([255, 255, 255, 255] ++ [0, 16, 128, 147] ++ [255, 255, 255, 255]) := by
  refine ⟨rfl, rfl⟩

/-- C6 counterexample: a program whose two lines both define the label `L:`
does not raise `DuplicateLabel` before the codec: there is no
line-classification pass, the first label line reaches the codec and the
run aborts with the codec's illegal-instruction error for that line. -/
theorem C6_no_duplicate_label_check :
    runEnc Instruction .raw false false false "L:\nL:" =
      .error "Error at line 1: unknown instruction L:" := by
  rfl

/-- C6 amended: both label lines are passed to the instruction codec: with
ignore-illegal unset the run aborts at line 1 with the codec's
illegal-instruction error, and with ignore-illegal set each of the two
label lines contributes a `ffffffff` fill slot. -/
theorem C6_label_lines_reach_codec :
    runEnc Instruction .hexString false false false "L:\nL:" =
      .error "Error at line 1: unknown instruction L:" ∧
    runEnc Instruction .raw true false false "L:\nL:" =
      .ok [255, 255, 255, 255, 255, 255, 255, 255] := by
  refine ⟨rfl, rfl⟩

/-- C7: `decode_program` fails with `MisalignedInput` on every byte array
whose length is not a multiple of 4, for every configuration, returning no
partial decode of any prefix. -/
theorem C7_misaligned_input (bytes : List Nat) (cfg : DecodeCfg)
    (h : bytes.length % 4 ≠ 0) :
    decodeProgram bytes cfg = .error .misalignedInput := by
  unfold decodeProgram
  rw [if_pos h]

/-- C7 witness: a 3-byte input is misaligned and is rejected. -/
theorem C7_misaligned_input_witness :
    ([0, 0, 0] : List Nat).length % 4 ≠ 0 ∧
    decodeProgram [0, 0, 0] ⟨false, false, false, false, false⟩ =
      .error .misalignedInput :=
  ⟨by decide, C7_misaligned_input [0, 0, 0] ⟨false, false, false, false, false⟩ (by decide)⟩

/-- The encoding loop propagates the first codec failure, tagged with the
failing line's 1-based position in the processed line list, offset by the
starting index. -/
theorem encodeLines_error_at (codec : Codec) (msg : String) :
    ∀ (L : List String) (j i0 : Nat) (hj : j < L.length),
      (∀ i (hi : i < j), ∃ v, codec (L.get ⟨i, by omega⟩) = .ok v) →
      codec (L.get ⟨j, hj⟩) = .error msg →
      encodeLines codec false i0 L = .error s!"Error at line {i0 + j + 1}: {msg}" := by
  intro L
  induction L with
  | nil => intro j i0 hj; simp at hj
  | cons a rest ih =>
    intro j i0 hj hok hfail
    cases j with
    | zero =>
      simp only [List.get] at hfail
      simp only [encodeLines, hfail]
      simp
    | succ j =>
      obtain ⟨v, hv⟩ := hok 0 (by omega)
      simp only [List.get] at hv hfail
      simp only [encodeLines, hv]
      have hrec := ih j (i0 + 1) (by simpa using hj)
        (fun i hi => by
          have := hok (i + 1) (by omega)
          simpa using this)
        hfail
      rw [hrec]
      have : i0 + 1 + j + 1 = i0 + (j + 1) + 1 := by omega
      rw [this]
      rfl

/-- C3 amended: with ignore-illegal unset, when the line at 0-based index
`j` of the processed (blank-collapsed) line list is the first to fail,
the driver raises an error tagged `j + 1` — the 1-indexed position among
the non-empty lines, not the original source line number. -/
theorem C3_error_line_numbers (codec : Codec) (mode : OutputMode) (sa si : Bool)
    (s : String) (j : Nat) (msg : String) (hj : j < (instsOf s).length)
    (hok : ∀ i (hi : i < j), ∃ v, codec ((instsOf s).get ⟨i, by omega⟩) = .ok v)
    (hfail : codec ((instsOf s).get ⟨j, hj⟩) = .error msg) :
    runEnc codec mode false sa si s = .error s!"Error at line {j + 1}: {msg}" := by
  have h := encodeLines_error_at codec msg (instsOf s) j 0 hj hok hfail
  simp only [runEnc, h]
  norm_num

/-- C3 witness: for the input `"\n\nsubi x0, x0, 0"` the sole processed
line (index 0) fails to encode and the error is tagged line 1. -/
theorem C3_error_line_numbers_witness :
    (0 < (instsOf "\n\nsubi x0, x0, 0").length) ∧
    runEnc Instruction .raw false false false "\n\nsubi x0, x0, 0" =
      .error "Error at line 1: unknown instruction subi" :=
  ⟨by decide,
   C3_error_line_numbers Instruction .raw false false "\n\nsubi x0, x0, 0" 0
     "unknown instruction subi" (by decide) (fun i hi => absurd hi (by omega)) rfl⟩

/-- C3 counterexample: for the input `"\n\nsubi x0, x0, 0"`, whose failing
instruction sits on original source line 3 behind two blank lines, the
driver reports line 1 (blank lines are collapsed by `split(/\n+/)` before
counting), not line 3 as the claim states. -/
theorem C3_blank_lines_not_counted :
    runEnc Instruction .raw false false false "\n\nsubi x0, x0, 0" =
      .error "Error at line 1: unknown instruction subi" ∧
    runEnc Instruction .raw false false false "\n\nsubi x0, x0, 0" ≠
      .error "Error at line 3: unknown instruction subi" := by
  refine ⟨rfl, ?_⟩
  intro h
  rw [show runEnc Instruction .raw false false false "\n\nsubi x0, x0, 0" =
      .error "Error at line 1: unknown instruction subi" from rfl] at h
  have h2 : "Error at line 1: unknown instruction subi" =
      "Error at line 3: unknown instruction subi" := by injection h
  exact absurd h2 (by decide)

/-- The byte count of a hex-pair conversion is half the digit count. -/
theorem fromHexL_length : ∀ cs : List Char, (fromHexL cs).length = cs.length / 2
  | [] => by simp [fromHexL]
  | [a] => by simp [fromHexL]
  | a :: b :: rest => by
    simp only [fromHexL, List.length_cons, fromHexL_length rest]
    omega

/-- Every slot an `ok` encoding loop produces carries an 8-digit hex word,
provided the codec only returns 8-digit hex for the processed lines (the
ignore-illegal fill `"ffffffff"` is itself 8 digits). -/
theorem encodeLines_ok_hex8 (codec : Codec) (ign : Bool) :
    ∀ (L : List String) (i0 : Nat) (lines : List EncLine),
      encodeLines codec ign i0 L = .ok lines →
      (∀ l ∈ L, ∀ v, codec l = .ok v → v.hex.length = 8) →
      ∀ e ∈ lines, e.hex.length = 8 := by
  intro L
  induction L with
  | nil =>
    intro i0 lines h hc e he
    simp only [encodeLines] at h
    cases h
    simp at he
  | cons a rest ih =>
    intro i0 lines h hc e he
    simp only [encodeLines] at h
    cases hv : codec a with
    | ok v =>
      rw [hv] at h
      cases hrec : encodeLines codec ign (i0 + 1) rest with
      | error e2 => rw [hrec] at h; cases h
      | ok lines2 =>
        rw [hrec] at h
        cases h
        rcases List.mem_cons.mp he with h1 | h1
        · subst h1
          exact hc a (List.mem_cons_self a rest) v hv
        · exact ih (i0 + 1) lines2 hrec (fun l hl => hc l (List.mem_cons_of_mem a hl)) e h1
    | error msg =>
      rw [hv] at h
      cases ign with
      | false => cases h
      | true =>
        simp only [if_pos] at h
        cases hrec : encodeLines codec true (i0 + 1) rest with
        | error e2 => rw [hrec] at h; cases h
        | ok lines2 =>
          rw [hrec] at h
          cases h
          rcases List.mem_cons.mp he with h1 | h1
          · subst h1; rfl
          · exact ih (i0 + 1) lines2 hrec (fun l hl => hc l (List.mem_cons_of_mem a hl)) e h1

/-- C8: in Raw bytes mode the driver's output is independent of the
show-address and show-source-text flags, and on success it is exactly the
concatenation, in line order, of the `fromHex` bytes of each instruction
slot — 4 bytes per slot whenever the codec emits 8-digit hex words (the
ignore-illegal fill does too). -/
theorem C8_raw_mode (codec : Codec) (ign a1 s1 a2 s2 : Bool) (cmds : String)
    (hc : ∀ l ∈ instsOf cmds, ∀ v, codec l = .ok v → v.hex.length = 8) :
    runEnc codec .raw ign a1 s1 cmds = runEnc codec .raw ign a2 s2 cmds ∧
    ∀ bs, runEnc codec .raw ign a1 s1 cmds = .ok bs →
      ∃ lines, encodeLines codec ign 0 (instsOf cmds) = .ok lines ∧
        bs = (lines.map (fun l => fromHex l.hex)).flatten ∧
        ∀ l ∈ lines, (fromHex l.hex).length = 4 := by
  cases h : encodeLines codec ign 0 (instsOf cmds) with
  | error e =>
    refine ⟨?_, ?_⟩
    · simp only [runEnc, h]
    · intro bs hbs
      simp only [runEnc, h] at hbs
      cases hbs
  | ok lines =>
    refine ⟨?_, ?_⟩
    · simp only [runEnc, h]
    · intro bs hbs
      simp only [runEnc, h] at hbs
      cases hbs
      refine ⟨lines, rfl, rfl, ?_⟩
      intro l hl
      have h8 : l.hex.length = 8 := encodeLines_ok_hex8 codec ign (instsOf cmds) 0 lines h hc l hl
      have : (fromHex l.hex).length = l.hex.data.length / 2 := fromHexL_length l.hex.data
      rw [this]
      have : l.hex.data.length = 8 := h8
      omega

/-- C8 witness: a two-line program (one encodable line, one ignored illegal
line) under ignore-illegal, with both flag settings. -/
theorem C8_raw_mode_witness :
    (∀ l ∈ instsOf "addi x0, x0, 0\nmul x1, x1, x1",
       ∀ v, Instruction l = .ok v → v.hex.length = 8) ∧
    (runEnc Instruction .raw true true true "addi x0, x0, 0\nmul x1, x1, x1" =
       runEnc Instruction .raw true false false "addi x0, x0, 0\nmul x1, x1, x1" ∧
     ∀ bs, runEnc Instruction .raw true true true "addi x0, x0, 0\nmul x1, x1, x1" = .ok bs →
       ∃ lines,
         encodeLines Instruction true 0 (instsOf "addi x0, x0, 0\nmul x1, x1, x1") = .ok lines ∧
         bs = (lines.map (fun l => fromHex l.hex)).flatten ∧
         ∀ l ∈ lines, (fromHex l.hex).length = 4) := by
  have hc : ∀ l ∈ instsOf "addi x0, x0, 0\nmul x1, x1, x1",
      ∀ v, Instruction l = .ok v → v.hex.length = 8 := by
    intro l hl v hv
    rw [show instsOf "addi x0, x0, 0\nmul x1, x1, x1" =
        ["addi x0, x0, 0", "mul x1, x1, x1"] from rfl] at hl
    rcases List.mem_cons.mp hl with h1 | h1
    · subst h1
      rw [show Instruction "addi x0, x0, 0" =
          .ok ⟨"00000013", some "00000000000000000000000000010011"⟩ from rfl] at hv
      cases hv
      decide
    · rcases List.mem_cons.mp h1 with h2 | h2
      · subst h2
        rw [show Instruction "mul x1, x1, x1" =
            .error "unknown instruction mul" from rfl] at hv
        cases hv
      · simp at h2
  exact ⟨hc, C8_raw_mode Instruction true true true false false
    "addi x0, x0, 0\nmul x1, x1, x1" hc⟩

/-! ### C9: blank-line handling -/


/-- The newline separator predicate of `split(/\n+/)`. -/
def nlP (c : Char) : Bool := decide (c = '\n')

/-- List-level form of the conditional `shift` of an empty first element. -/
def shiftEmptyL : List (List Char) → List (List Char)
  | [] => []
  | a :: rest => if a = [] then rest else a :: rest

/-- List-level form of the conditional `pop` of an empty last element. -/
def popEmptyL (l : List (List Char)) : List (List Char) :=
  if l.getLast? = some [] then l.dropLast else l

theorem consHead_ne_nil (c : Char) (l : List (List Char)) : consHead c l ≠ [] := by
  cases l <;> simp [consHead]

theorem jsSplitNl_cons_no_nl (c : Char) (hc : ¬ c = '\n') (rest : List Char) :
    jsSplitNl (c :: rest) = consHead c (jsSplitNl rest) := by
  cases rest with
  | nil => simp [jsSplitNl, consHead, hc]
  | cons r rs => simp [jsSplitNl, hc]

theorem jsSplitNl_ne_nil : ∀ cs : List Char, jsSplitNl cs ≠ []
  | [] => by simp [jsSplitNl]
  | [c] => by
    by_cases hc : c = '\n' <;> simp [jsSplitNl, hc]
  | c :: r :: rs => by
    by_cases hc : c = '\n'
    · subst hc
      by_cases hr : r = '\n'
      · subst hr
        rw [show jsSplitNl ('\n' :: '\n' :: rs) = jsSplitNl ('\n' :: rs) by
          simp [jsSplitNl]]
        exact jsSplitNl_ne_nil ('\n' :: rs)
      · rw [show jsSplitNl ('\n' :: r :: rs) = [] :: jsSplitNl (r :: rs) by
          simp [jsSplitNl, hr]]
        simp
    · rw [jsSplitNl_cons_no_nl c hc (r :: rs)]
      exact consHead_ne_nil c _

theorem splitWhen_ne_nil (p : Char → Bool) : ∀ cs : List Char, splitWhen p cs ≠ []
  | [] => by simp [splitWhen]
  | c :: rest => by
    by_cases hc : p c
    · rw [show splitWhen p (c :: rest) = [] :: splitWhen p rest by
        simp [splitWhen, hc]]
      simp
    · rw [show splitWhen p (c :: rest) = consHead c (splitWhen p rest) by
        simp [splitWhen, hc]]
      exact consHead_ne_nil c _

theorem jsSplitNl_nl_cons (r : List Char) :
    jsSplitNl ('\n' :: r) = [] :: jsSplitNl (r.dropWhile nlP) := by
  induction r with
  | nil => rfl
  | cons x rs ih =>
    by_cases hx : x = '\n'
    · subst hx
      rw [show jsSplitNl ('\n' :: '\n' :: rs) = jsSplitNl ('\n' :: rs) by
        simp [jsSplitNl]]
      rw [ih]
      rw [show ('\n' :: rs).dropWhile nlP = rs.dropWhile nlP by
        simp [List.dropWhile, nlP]]
    · rw [show jsSplitNl ('\n' :: x :: rs) = [] :: jsSplitNl (x :: rs) by
        simp [jsSplitNl, hx]]
      rw [show (x :: rs).dropWhile nlP = x :: rs by simp [List.dropWhile, nlP, hx]]

theorem jsSplitNl_no_nl (t : List Char) (h : ∀ c ∈ t, c ≠ '\n') :
    jsSplitNl t = [t] := by
  induction t with
  | nil => rfl
  | cons c rest ih =>
    have hc : c ≠ '\n' := h c (by simp)
    rw [jsSplitNl_cons_no_nl c hc rest, ih (fun x hx => h x (by simp [hx]))]
    rfl

theorem jsSplitNl_seg (t : List Char) (ht : t ≠ []) (h : ∀ c ∈ t, c ≠ '\n')
    (r : List Char) :
    jsSplitNl (t ++ '\n' :: r) = t :: jsSplitNl (r.dropWhile nlP) := by
  induction t with
  | nil => exact absurd rfl ht
  | cons c t ih =>
    have hc : c ≠ '\n' := h c (by simp)
    rw [List.cons_append, jsSplitNl_cons_no_nl c hc (t ++ '\n' :: r)]
    cases t with
    | nil =>
      rw [List.nil_append, jsSplitNl_nl_cons r]
      rfl
    | cons d t2 =>
      rw [ih (by simp) (fun x hx => h x (by simp [hx]))]
      rfl

theorem splitWhen_nl_no_nl (t : List Char) (h : ∀ c ∈ t, c ≠ '\n') :
    splitWhen nlP t = [t] := by
  induction t with
  | nil => rfl
  | cons c rest ih =>
    have hc : c ≠ '\n' := h c (by simp)
    rw [show splitWhen nlP (c :: rest) = consHead c (splitWhen nlP rest) by
      simp [splitWhen, nlP, hc]]
    rw [ih (fun x hx => h x (by simp [hx]))]
    rfl

theorem splitWhen_nl_seg (t : List Char) (h : ∀ c ∈ t, c ≠ '\n') (r : List Char) :
    splitWhen nlP (t ++ '\n' :: r) = t :: splitWhen nlP r := by
  induction t with
  | nil =>
    rw [List.nil_append]
    simp [splitWhen, nlP]
  | cons c t ih =>
    have hc : c ≠ '\n' := h c (by simp)
    rw [List.cons_append]
    rw [show splitWhen nlP (c :: (t ++ '\n' :: r)) =
        consHead c (splitWhen nlP (t ++ '\n' :: r)) by simp [splitWhen, nlP, hc]]
    rw [ih (fun x hx => h x (by simp [hx]))]
    rfl

theorem splitWhen_dropNl (r : List Char) :
    (splitWhen nlP (r.dropWhile nlP)).filter (· ≠ []) =
      (splitWhen nlP r).filter (· ≠ []) := by
  induction r with
  | nil => rfl
  | cons x rs ih =>
    by_cases hx : x = '\n'
    · subst hx
      rw [show ('\n' :: rs).dropWhile nlP = rs.dropWhile nlP by
        simp [List.dropWhile, nlP]]
      rw [ih]
      rw [show splitWhen nlP ('\n' :: rs) = [] :: splitWhen nlP rs by
        simp [splitWhen, nlP]]
      simp
    · rw [show (x :: rs).dropWhile nlP = x :: rs by simp [List.dropWhile, nlP, hx]]

theorem popEmptyL_cons (a : List Char) (L : List (List Char)) (hL : L ≠ []) :
    popEmptyL (a :: L) = a :: popEmptyL L := by
  cases L with
  | nil => exact absurd rfl hL
  | cons b bs =>
    unfold popEmptyL
    rw [List.getLast?_cons_cons]
    split
    · rfl
    · rfl

end RISCV
namespace RISCV

theorem shiftEmptyL_consHead (d : Char) (X : List (List Char)) :
    shiftEmptyL (consHead d X) = consHead d X := by
  cases X <;> simp [consHead, shiftEmptyL]

theorem dropWhile_head_false (p : Char → Bool) :
    ∀ (l : List Char) (d : Char) (ds : List Char),
      l.dropWhile p = d :: ds → p d = false
  | [], d, ds => by intro h; cases h
  | x :: rs, d, ds => by
    intro h
    by_cases hx : p x
    · rw [show (x :: rs).dropWhile p = rs.dropWhile p by simp [List.dropWhile, hx]] at h
      exact dropWhile_head_false p rs d ds h
    · rw [show (x :: rs).dropWhile p = x :: rs by simp [List.dropWhile, hx]] at h
      cases h
      simpa using hx

theorem splitJs_aux : ∀ (n : Nat) (cs : List Char), cs.length ≤ n →
    (popEmptyL (shiftEmptyL (jsSplitNl cs)) = (splitWhen nlP cs).filter (· ≠ [])) ∧
    ((∀ d ds, cs = d :: ds → ¬ d = '\n') →
      popEmptyL (jsSplitNl cs) = (splitWhen nlP cs).filter (· ≠ [])) := by
  intro n
  induction n with
  | zero =>
    intro cs hlen
    have hnil : cs = [] := List.eq_nil_of_length_eq_zero (by omega)
    subst hnil
    exact ⟨rfl, fun _ => rfl⟩
  | succ n ih =>
    intro cs hlen
    have partA : popEmptyL (shiftEmptyL (jsSplitNl cs)) =
        (splitWhen nlP cs).filter (· ≠ []) := by
      cases cs with
      | nil => rfl
      | cons c r =>
        by_cases hc : c = '\n'
        · subst hc
          rw [jsSplitNl_nl_cons r]
          rw [show shiftEmptyL ([] :: jsSplitNl (r.dropWhile nlP)) =
              jsSplitNl (r.dropWhile nlP) by simp [shiftEmptyL]]
          rw [show splitWhen nlP ('\n' :: r) = [] :: splitWhen nlP r by
            simp [splitWhen, nlP]]
          rw [show ([] :: splitWhen nlP r).filter (· ≠ []) =
              (splitWhen nlP r).filter (· ≠ []) by simp]
          rw [← splitWhen_dropNl r]
          have hlen2 : (r.dropWhile nlP).length ≤ n := by
            have h1 : (r.dropWhile nlP).length ≤ r.length :=
              ((List.dropWhile_suffix _).sublist).length_le
            simp at hlen
            omega
          exact (ih (r.dropWhile nlP) hlen2).2
            (fun d ds hd => by
              have := dropWhile_head_false nlP r d ds hd
              simpa [nlP] using this)
        · -- c does not start a newline: split off the first segment
          have htw : (c :: r).takeWhile (fun x => ! nlP x) =
              c :: r.takeWhile (fun x => ! nlP x) := by
            simp [List.takeWhile, nlP, hc]
          set t := (c :: r).takeWhile (fun x => ! nlP x) with htdef
          set rest2 := (c :: r).dropWhile (fun x => ! nlP x) with hrdef
          have hsplit : t ++ rest2 = c :: r :=
            List.takeWhile_append_dropWhile (fun x => ! nlP x) (c :: r)
          have ht_ne : t ≠ [] := by rw [htw]; simp
          have ht_no : ∀ x ∈ t, x ≠ '\n' := by
            intro x hx
            have := List.mem_takeWhile_imp hx
            simpa [nlP] using this
          cases hr2 : rest2 with
          | nil =>
            have hcs : c :: r = t := by rw [← hsplit, hr2, List.append_nil]
            rw [← hcs] at ht_ne ht_no
            rw [jsSplitNl_no_nl (c :: r) ht_no, splitWhen_nl_no_nl (c :: r) ht_no]
            rw [show shiftEmptyL [c :: r] = [c :: r] by simp [shiftEmptyL]]
            rw [show popEmptyL [c :: r] = [c :: r] by simp [popEmptyL]]
            simp
          | cons e r2 =>
            have he : e = '\n' := by
              have := dropWhile_head_false (fun x => ! nlP x) (c :: r) e r2
                (by rw [← hrdef, hr2])
              simpa [nlP] using this
            subst he
            have hcs : c :: r = t ++ '\n' :: r2 := by rw [← hsplit, hr2]
            rw [hcs]
            rw [jsSplitNl_seg t ht_ne ht_no r2, splitWhen_nl_seg t ht_no r2]
            rw [show shiftEmptyL (t :: jsSplitNl (r2.dropWhile nlP)) =
                t :: jsSplitNl (r2.dropWhile nlP) by simp [shiftEmptyL, ht_ne]]
            rw [popEmptyL_cons t _ (jsSplitNl_ne_nil _)]
            rw [show (t :: splitWhen nlP r2).filter (· ≠ []) =
                t :: (splitWhen nlP r2).filter (· ≠ []) by simp [ht_ne]]
            rw [← splitWhen_dropNl r2]
            have hlen2 : (r2.dropWhile nlP).length ≤ n := by
              have h1 : (r2.dropWhile nlP).length ≤ r2.length :=
                ((List.dropWhile_suffix _).sublist).length_le
              have h2 : (c :: r).length = t.length + (('\n' : Char) :: r2).length := by
                rw [hcs, List.length_append]
              simp at hlen h2
              omega
            have hrec := (ih (r2.dropWhile nlP) hlen2).2
              (fun d ds hd => by
                have := dropWhile_head_false nlP r2 d ds hd
                simpa [nlP] using this)
            rw [hrec]
    refine ⟨partA, ?_⟩
    intro hhead
    cases cs with
    | nil => rfl
    | cons d ds =>
      have hd : ¬ d = '\n' := hhead d ds rfl
      have h1 : jsSplitNl (d :: ds) = consHead d (jsSplitNl ds) :=
        jsSplitNl_cons_no_nl d hd ds
      rw [h1, ← shiftEmptyL_consHead d (jsSplitNl ds), ← h1]
      exact partA

theorem jsShiftEmpty_map (l : List (List Char)) :
    jsShiftEmpty (l.map String.mk) = (shiftEmptyL l).map String.mk := by
  cases l with
  | nil => rfl
  | cons a rest =>
    by_cases ha : a = []
    · subst ha
      simp [jsShiftEmpty, shiftEmptyL]
    · have hmk : ¬ String.mk a = "" := fun hcontra => ha (congrArg String.data hcontra)
      simp [jsShiftEmpty, shiftEmptyL, ha, hmk]

theorem getLast?_map_mk : ∀ l : List (List Char),
    (l.map String.mk).getLast? = l.getLast?.map String.mk
  | [] => rfl
  | [a] => rfl
  | a :: b :: rest => by
    rw [show (a :: b :: rest).map String.mk =
        String.mk a :: String.mk b :: rest.map String.mk from rfl]
    rw [List.getLast?_cons_cons]
    rw [show String.mk b :: rest.map String.mk = (b :: rest).map String.mk from rfl]
    rw [getLast?_map_mk (b :: rest), List.getLast?_cons_cons]

theorem dropLast_map_mk : ∀ l : List (List Char),
    (l.map String.mk).dropLast = l.dropLast.map String.mk
  | [] => rfl
  | [a] => rfl
  | a :: b :: rest => by
    rw [show (a :: b :: rest).map String.mk =
        String.mk a :: String.mk b :: rest.map String.mk from rfl]
    rw [List.dropLast_cons₂]
    rw [show String.mk b :: rest.map String.mk = (b :: rest).map String.mk from rfl]
    rw [dropLast_map_mk (b :: rest), List.dropLast_cons₂]
    rfl

theorem jsPopEmpty_map (l : List (List Char)) :
    jsPopEmpty (l.map String.mk) = (popEmptyL l).map String.mk := by
  unfold jsPopEmpty popEmptyL
  rw [getLast?_map_mk]
  by_cases h : l.getLast? = some []
  · rw [h, show Option.map String.mk (some ([] : List Char)) = some "" from rfl,
      if_pos rfl, if_pos rfl]
    exact dropLast_map_mk l
  · have hne : ¬ Option.map String.mk l.getLast? = some "" := by
      intro hcontra
      cases hl : l.getLast? with
      | none => rw [hl] at hcontra; cases hcontra
      | some x =>
        rw [hl, Option.map_some'] at hcontra
        have hx : String.mk x = "" := by injection hcontra
        have hx2 : x = [] := congrArg String.data hx
        exact h (by rw [hl, hx2])
    rw [if_neg hne, if_neg h]

theorem instsOf_eq_filter (s : String) :
    instsOf s = ((splitWhen nlP s.data).filter (· ≠ [])).map String.mk := by
  unfold instsOf
  rw [jsShiftEmpty_map, jsPopEmpty_map]
  rw [(splitJs_aux s.data.length s.data (le_refl _)).1]

theorem all_nl_filter (cs : List Char) (h : ∀ c ∈ cs, c = '\n') :
    (splitWhen nlP cs).filter (· ≠ []) = [] := by
  induction cs with
  | nil => rfl
  | cons c rest ih =>
    have hc : c = '\n' := h c (by simp)
    rw [show splitWhen nlP (c :: rest) = [] :: splitWhen nlP rest by
      simp [splitWhen, nlP, hc]]
    rw [show ([] :: splitWhen nlP rest).filter (· ≠ []) =
        (splitWhen nlP rest).filter (· ≠ []) by simp]
    exact ih (fun x hx => h x (by simp [hx]))

/-- C9: blank-line handling of `RISCVEncode.run` — the processed line list
is exactly the list of non-empty segments of the input split at every
newline (so leading/trailing newlines vanish, newline runs act as one
separator, and the k-th non-empty line is the k-th instruction slot, at
address `4·k`); consequently any input consisting solely of newlines (or
empty) yields the empty byte array in every output mode and flag setting. -/
theorem C9_blank_lines :
    (∀ s : String,
      instsOf s = ((splitWhen nlP s.data).filter (· ≠ [])).map String.mk) ∧
    (∀ (codec : Codec) (mode : OutputMode) (ign sa si : Bool) (s : String),
      (∀ c ∈ s.data, c = '\n') → runEnc codec mode ign sa si s = .ok []) := by
  refine ⟨instsOf_eq_filter, ?_⟩
  intro codec mode ign sa si s hall
  have h0 : instsOf s = [] := by
    rw [instsOf_eq_filter s, all_nl_filter s.data hall]
    rfl
  unfold runEnc
  rw [h0]
  cases mode <;> rfl

/-- C9 witness: the two-newline input is all newlines and encodes to the
empty byte array. -/
theorem C9_blank_lines_witness :
    (∀ c ∈ ("\n\n" : String).data, c = '\n') ∧
    runEnc Instruction .binString false false false "\n\n" = .ok [] :=
  ⟨by decide,
   C9_blank_lines.2 Instruction .binString false false false "\n\n" (by decide)⟩

/-! ### C4: address prefix width -/

theorem hexDigitsGo_length :
    ∀ (fuel n : Nat), n < 16 ^ fuel → 0 < fuel →
      (hexDigitsGo fuel n).length = Nat.log 16 n + 1 := by
  intro fuel
  induction fuel with
  | zero => intro n _ h0; omega
  | succ fuel ih =>
    intro n h _
    by_cases hn : n < 16
    · rw [show hexDigitsGo (fuel + 1) n = [hexChar n] by simp [hexDigitsGo, hn]]
      have : Nat.log 16 n = 0 := Nat.log_eq_zero_iff.mpr (Or.inl hn)
      simp [this]
    · rw [show hexDigitsGo (fuel + 1) n =
          hexDigitsGo fuel (n / 16) ++ [hexChar (n % 16)] by simp [hexDigitsGo, hn]]
      have h16 : n / 16 < 16 ^ fuel := by
        rw [Nat.div_lt_iff_lt_mul (by norm_num)]
        calc n < 16 ^ (fuel + 1) := h
          _ = 16 ^ fuel * 16 := by rw [pow_succ]
      have hfuel : 0 < fuel := by
        rcases Nat.eq_zero_or_pos fuel with h0 | h0
        · subst h0
          simp at h
          omega
        · exact h0
      rw [List.length_append, ih (n / 16) h16 hfuel, Nat.log_div_base]
      have hpos : 0 < Nat.log 16 n := Nat.log_pos (by norm_num) (by omega)
      simp
      omega

theorem hexLen_eq (n : Nat) : hexLen n = Nat.log 16 n + 1 := by
  unfold hexLen
  refine hexDigitsGo_length (n + 1) n ?_ (by omega)
  calc n < 16 ^ n := Nat.lt_pow_self (by norm_num) n
    _ ≤ 16 ^ (n + 1) := Nat.pow_le_pow_right (by norm_num) (by omega)

theorem ceilLog16_eq_clog (m : Nat) : ceilLog16 m = Nat.clog 16 m := by
  unfold ceilLog16
  by_cases hm : m ≤ 1
  · rw [if_pos hm]
    interval_cases m
    · rw [Nat.clog_zero_right]
    · rw [Nat.clog_one_right]
  · rw [if_neg hm]
    push_neg at hm
    rw [hexLen_eq]
    refine le_antisymm ?_ ?_
    · by_contra hcon
      push_neg at hcon
      have hle : Nat.clog 16 m ≤ Nat.log 16 (m - 1) := by omega
      have h3 : m ≤ 16 ^ Nat.clog 16 m := Nat.le_pow_clog (by norm_num) m
      have h4 : (16 : Nat) ^ Nat.clog 16 m ≤ 16 ^ Nat.log 16 (m - 1) :=
        Nat.pow_le_pow_right (by norm_num) hle
      have h5 : (16 : Nat) ^ Nat.log 16 (m - 1) ≤ m - 1 :=
        Nat.pow_log_le_self 16 (by omega)
      omega
    · have h1 : m - 1 < 16 ^ (Nat.log 16 (m - 1) + 1) :=
        @Nat.lt_pow_succ_log_self 16 (by norm_num) (m - 1)
      exact (Nat.le_pow_iff_clog_le (by norm_num)).mp (by omega)
theorem jsPadStart_length (t : String) (len : Nat) (c : Char) :
    (jsPadStart t len c).length = max len t.length := by
  unfold jsPadStart
  rw [String.length_append, String.length_mk, List.length_replicate]
  omega

theorem natToHex_length (n : Nat) : (natToHex n).length = hexLen n := rfl

theorem encodeLines_ok_length (codec : Codec) (ign : Bool) :
    ∀ (L : List String) (i0 : Nat) (lines : List EncLine),
      encodeLines codec ign i0 L = .ok lines → lines.length = L.length := by
  intro L
  induction L with
  | nil =>
    intro i0 lines h
    cases h
    rfl
  | cons a rest ih =>
    intro i0 lines h
    simp only [encodeLines] at h
    cases hv : codec a with
    | ok v =>
      rw [hv] at h
      cases hrec : encodeLines codec ign (i0 + 1) rest with
      | error e => rw [hrec] at h; cases h
      | ok lines2 =>
        rw [hrec] at h
        cases h
        simp [ih (i0 + 1) lines2 hrec]
    | error msg =>
      rw [hv] at h
      cases ign with
      | false => cases h
      | true =>
        simp only [if_pos] at h
        cases hrec : encodeLines codec true (i0 + 1) rest with
        | error e => rw [hrec] at h; cases h
        | ok lines2 =>
          rw [hrec] at h
          cases h
          simp [ih (i0 + 1) lines2 hrec]

/-- C4: in the textual output modes with show-address enabled, the line for
the k-th instruction is prefixed with `0x` followed by the hexadecimal
address `k·4` zero-padded to exactly `ceil(log₁₆ (4·instNum))` digits (the
padding width the driver computes, shown equal to `Nat.clog 16 (4·instNum)`,
with `4·instNum` the total byte count). -/
theorem C4_addr_pad_width (codec : Codec) (mode : OutputMode) (ign si : Bool)
    (s : String) (lines : List EncLine)
    (hm : mode = .hexString ∨ mode = .binString)
    (henc : encodeLines codec ign 0 (instsOf s) = .ok lines) :
    runEnc codec mode ign true si s = .ok (strToByteArray (jsJoinNl
      ((lines.enum).map (fun p =>
        renderLine mode true si (ceilLog16 ((instsOf s).length * 4)) p.1 p.2)))) ∧
    ∀ k, (hk : k < lines.length) → ∃ rest,
      ((lines.enum).map (fun p =>
        renderLine mode true si (ceilLog16 ((instsOf s).length * 4)) p.1 p.2)).get
        ⟨k, by simpa using hk⟩ =
        some ("0x" ++ jsPadStart (natToHex (k * 4))
          (ceilLog16 ((instsOf s).length * 4)) '0' ++ ": " ++ rest) ∧
      (jsPadStart (natToHex (k * 4)) (ceilLog16 ((instsOf s).length * 4)) '0').length =
        Nat.clog 16 ((instsOf s).length * 4) := by
  constructor
  · simp only [runEnc, henc]
    rcases hm with rfl | rfl <;> rfl
  · intro k hk
    have hlen_eq : lines.length = (instsOf s).length :=
      encodeLines_ok_length codec ign (instsOf s) 0 lines henc
    have hgetmap : ((lines.enum).map (fun p =>
        renderLine mode true si (ceilLog16 ((instsOf s).length * 4)) p.1 p.2)).get
        ⟨k, by simpa using hk⟩ =
        renderLine mode true si (ceilLog16 ((instsOf s).length * 4)) k
          (lines.get ⟨k, hk⟩) := by
      rw [List.get_eq_getElem, List.getElem_map, List.getElem_enum]
      rw [List.get_eq_getElem]
    have hlenpad : (jsPadStart (natToHex (k * 4))
        (ceilLog16 ((instsOf s).length * 4)) '0').length =
        Nat.clog 16 ((instsOf s).length * 4) := by
      rw [jsPadStart_length, natToHex_length, ← ceilLog16_eq_clog]
      have hn1 : 1 ≤ (instsOf s).length := by omega
      have hceil : ceilLog16 ((instsOf s).length * 4) =
          hexLen ((instsOf s).length * 4 - 1) := by
        unfold ceilLog16
        rw [if_neg (by omega)]
      have hmono : hexLen (k * 4) ≤ hexLen ((instsOf s).length * 4 - 1) := by
        rw [hexLen_eq, hexLen_eq]
        have : k * 4 ≤ (instsOf s).length * 4 - 1 := by omega
        have := @Nat.log_mono_right 16 (k * 4) ((instsOf s).length * 4 - 1) this
        omega
      omega
    cases si with
    | false =>
      refine ⟨jsTmpl (instStrOf mode (lines.get ⟨k, hk⟩)), ?_, hlenpad⟩
      rw [hgetmap]
      rfl
    | true =>
      refine ⟨jsTmpl (instStrOf mode (lines.get ⟨k, hk⟩)) ++ " [ " ++
        jsTrim (lines.get ⟨k, hk⟩).src ++ " ]", ?_, hlenpad⟩
      rw [hgetmap]
      show some (("0x" ++ jsPadStart (natToHex (k * 4))
          (ceilLog16 ((instsOf s).length * 4)) '0' ++ ": ") ++
        jsTmpl (instStrOf mode (lines.get ⟨k, hk⟩)) ++ " [ " ++
          jsTrim (lines.get ⟨k, hk⟩).src ++ " ]") = _
      simp only [String.append_assoc]
/-- C4 witness: the single-line program `addi x0, x0, 0` with show-address
on, at instruction index 0 (padding width `ceil(log₁₆ 4) = 1`). -/
theorem C4_addr_pad_width_witness :
    (encodeLines Instruction false 0 (instsOf "addi x0, x0, 0") =
      .ok [⟨"00000013", some "00000000000000000000000000010011", "addi x0, x0, 0"⟩]) ∧
    (0 < ([⟨"00000013", some "00000000000000000000000000010011",
        "addi x0, x0, 0"⟩] : List EncLine).length) ∧
    ∃ rest,
      ((([⟨"00000013", some "00000000000000000000000000010011",
          "addi x0, x0, 0"⟩] : List EncLine).enum).map (fun p =>
        renderLine .hexString true false
          (ceilLog16 ((instsOf "addi x0, x0, 0").length * 4)) p.1 p.2)).get
        ⟨0, by decide⟩ =
        some ("0x" ++ jsPadStart (natToHex (0 * 4))
          (ceilLog16 ((instsOf "addi x0, x0, 0").length * 4)) '0' ++ ": " ++ rest) ∧
      (jsPadStart (natToHex (0 * 4))
        (ceilLog16 ((instsOf "addi x0, x0, 0").length * 4)) '0').length =
        Nat.clog 16 ((instsOf "addi x0, x0, 0").length * 4) :=
  ⟨rfl, by decide,
   (C4_addr_pad_width Instruction .hexString false false "addi x0, x0, 0"
     [⟨"00000013", some "00000000000000000000000000010011", "addi x0, x0, 0"⟩]
     (Or.inl rfl) rfl).2 0 (by decide)⟩

/-! ### C10: one output line per instruction -/

/-- No newline character occurs in the string. -/
def noNlStr (t : String) : Prop := ∀ c ∈ t.data, c ≠ '\n'

theorem noNlStr_append (a b : String) (ha : noNlStr a) (hb : noNlStr b) :
    noNlStr (a ++ b) := by
  intro c hc
  rw [String.data_append] at hc
  rcases List.mem_append.mp hc with h | h
  · exact ha c h
  · exact hb c h

theorem hexChar_ne_nl (n : Nat) : hexChar n ≠ '\n' := by
  unfold hexChar
  unfold List.getD
  cases h : "0123456789abcdef".data.get? n with
  | none => simp
  | some c =>
    have hm : c ∈ "0123456789abcdef".data := List.get?_mem h
    simp only [Option.getD_some]
    have hall : ∀ x ∈ "0123456789abcdef".data, x ≠ '\n' := by decide
    exact hall c hm

theorem noNl_hexDigitsGo : ∀ (fuel n : Nat) (c : Char),
    c ∈ hexDigitsGo fuel n → c ≠ '\n' := by
  intro fuel
  induction fuel with
  | zero => intro n c hc; simp [hexDigitsGo] at hc
  | succ fuel ih =>
    intro n c hc
    by_cases hn : n < 16
    · rw [show hexDigitsGo (fuel + 1) n = [hexChar n] by simp [hexDigitsGo, hn]] at hc
      simp at hc
      subst hc
      exact hexChar_ne_nl n
    · rw [show hexDigitsGo (fuel + 1) n =
          hexDigitsGo fuel (n / 16) ++ [hexChar (n % 16)] by
        simp [hexDigitsGo, hn]] at hc
      rcases List.mem_append.mp hc with h | h
      · exact ih (n / 16) c h
      · simp at h
        subst h
        exact hexChar_ne_nl (n % 16)

theorem noNlStr_natToHex (n : Nat) : noNlStr (natToHex n) :=
  fun c hc => noNl_hexDigitsGo (n + 1) n c hc

theorem noNlStr_padStart (t : String) (len : Nat) (ht : noNlStr t) :
    noNlStr (jsPadStart t len '0') := by
  refine noNlStr_append _ _ ?_ ht
  intro c hc
  have : c = '0' := List.eq_of_mem_replicate hc
  subst this
  decide

theorem noNlStr_trim (t : String) (ht : noNlStr t) : noNlStr (jsTrim t) := by
  intro c hc
  refine ht c ?_
  unfold jsTrim at hc
  rw [show (String.mk ((((t.data.dropWhile jsIsWs).reverse).dropWhile jsIsWs).reverse)).data
      = (((t.data.dropWhile jsIsWs).reverse).dropWhile jsIsWs).reverse from rfl] at hc
  have h1 := List.mem_reverse.mp hc
  have h2 := ((List.dropWhile_suffix jsIsWs).sublist).subset h1
  have h3 := List.mem_reverse.mp h2
  exact ((List.dropWhile_suffix jsIsWs).sublist).subset h3

theorem length_pos_of_ne_empty (t : String) (h : t ≠ "") : 0 < t.length := by
  cases t with
  | mk d =>
    cases d with
    | nil => exact absurd rfl h
    | cons a b =>
      rw [String.length_mk]
      simp

theorem append_ne_empty_left (a b : String) (ha : 0 < a.length) : a ++ b ≠ "" := by
  intro hcontra
  have hlen := congrArg String.length hcontra
  rw [String.length_append] at hlen
  rw [show ("" : String).length = 0 from rfl] at hlen
  omega

theorem splitWhen_mem_no_sep : ∀ (cs seg : List Char),
    seg ∈ splitWhen nlP cs → ∀ c ∈ seg, ¬ c = '\n' := by
  intro cs
  induction cs with
  | nil =>
    intro seg hseg c hc
    simp [splitWhen] at hseg
    subst hseg
    simp at hc
  | cons x rest ih =>
    intro seg hseg c hc
    by_cases hx : x = '\n'
    · rw [show splitWhen nlP (x :: rest) = [] :: splitWhen nlP rest by
        simp [splitWhen, nlP, hx]] at hseg
      rcases List.mem_cons.mp hseg with h | h
      · subst h; simp at hc
      · exact ih seg h c hc
    · rw [show splitWhen nlP (x :: rest) = consHead x (splitWhen nlP rest) by
        simp [splitWhen, nlP, hx]] at hseg
      rcases hsp : splitWhen nlP rest with _ | ⟨s, ss⟩
      · exact absurd hsp (splitWhen_ne_nil nlP rest)
      · rw [hsp] at hseg
        simp only [consHead] at hseg
        rcases List.mem_cons.mp hseg with h | h
        · subst h
          rcases List.mem_cons.mp hc with h2 | h2
          · subst h2; exact hx
          · exact ih s (by rw [hsp]; simp) c h2
        · exact ih seg (by rw [hsp]; simp [h]) c hc

theorem instsOf_no_nl (s : String) : ∀ l ∈ instsOf s, noNlStr l := by
  intro l hl
  rw [instsOf_eq_filter s] at hl
  rcases List.mem_map.mp hl with ⟨seg, hseg, rfl⟩
  have hseg2 : seg ∈ splitWhen nlP s.data := List.mem_of_mem_filter hseg
  intro c hc
  exact splitWhen_mem_no_sep s.data seg hseg2 c hc

/-- Goodness of one codec value for textual rendering: non-empty,
newline-free hex and bin renderings. -/
def GoodVal (v : InstrVal) : Prop :=
  v.hex ≠ "" ∧ noNlStr v.hex ∧ ∃ b, v.bin = some b ∧ b ≠ "" ∧ noNlStr b

/-- Goodness of one encoded slot. -/
def GoodLine (el : EncLine) : Prop :=
  el.hex ≠ "" ∧ noNlStr el.hex ∧
    (∃ b, el.bin = some b ∧ b ≠ "" ∧ noNlStr b) ∧ noNlStr el.src

theorem encodeLines_all_good (codec : Codec) (ign : Bool) :
    ∀ (L : List String) (i0 : Nat),
      (∀ l ∈ L, ∃ v, codec l = .ok v ∧ GoodVal v) →
      (∀ l ∈ L, noNlStr l) →
      ∃ lines, encodeLines codec ign i0 L = .ok lines ∧
        lines.length = L.length ∧ ∀ el ∈ lines, GoodLine el := by
  intro L
  induction L with
  | nil =>
    intro i0 _ _
    exact ⟨[], rfl, rfl, by simp⟩
  | cons a rest ih =>
    intro i0 hok hnl
    obtain ⟨v, hv, hgood⟩ := hok a (by simp)
    obtain ⟨lines2, h2, hlen2, hgood2⟩ :=
      ih (i0 + 1) (fun l hl => hok l (by simp [hl])) (fun l hl => hnl l (by simp [hl]))
    refine ⟨⟨v.hex, v.bin, a⟩ :: lines2, ?_, by simp [hlen2], ?_⟩
    · simp only [encodeLines, hv, h2]
      rfl
    · intro el hel
      rcases List.mem_cons.mp hel with h | h
      · subst h
        obtain ⟨hne, hhex, b, hb, hbne, hbnl⟩ := hgood
        exact ⟨hne, hhex, ⟨b, hb, hbne, hbnl⟩, hnl a (by simp)⟩
      · exact hgood2 el h

theorem renderLine_good (mode : OutputMode) (sa si : Bool) (aL i : Nat)
    (el : EncLine) (u : String) (hu : instStrOf mode el = some u)
    (hune : u ≠ "") (hunl : noNlStr u) (hsrc : noNlStr el.src) :
    jsJoinStr (renderLine mode sa si aL i el) ≠ "" ∧
      noNlStr (jsJoinStr (renderLine mode sa si aL i el)) := by
  have hap : noNlStr ("0x" ++ jsPadStart (natToHex (i * 4)) aL '0' ++ ": ") := by
    refine noNlStr_append _ _ (noNlStr_append _ _ ?_ ?_) ?_
    · intro c hc; revert c; decide
    · exact noNlStr_padStart _ _ (noNlStr_natToHex _)
    · intro c hc; revert c; decide
  have hlb : noNlStr " [ " := by intro c hc; revert c; decide
  have hrb : noNlStr " ]" := by intro c hc; revert c; decide
  have htr : noNlStr (jsTrim el.src) := noNlStr_trim _ hsrc
  unfold renderLine
  rw [hu]
  cases sa <;> cases si <;> simp only [Bool.and_self, Bool.and_true, Bool.and_false,
    Bool.true_and, Bool.false_and, if_true, if_false, jsJoinStr, jsTmpl]
  · exact ⟨hune, hunl⟩
  · refine ⟨append_ne_empty_left _ _ (by
      rw [String.length_append, String.length_append]
      have hu0 := length_pos_of_ne_empty u hune
      omega), ?_⟩
    exact noNlStr_append _ _ (noNlStr_append _ _ (noNlStr_append _ _ hunl hlb) htr) hrb
  · refine ⟨append_ne_empty_left _ _ (by
      rw [String.length_append]
      rw [show (": " : String).length = 2 from rfl]
      omega), ?_⟩
    exact noNlStr_append _ _ hap hunl
  · refine ⟨append_ne_empty_left _ _ (by
      rw [String.length_append, String.length_append, String.length_append]
      rw [show (" [ " : String).length = 3 from rfl]
      omega), ?_⟩
    exact noNlStr_append _ _ (noNlStr_append _ _ (noNlStr_append _ _
      (noNlStr_append _ _ hap hunl) hlb) htr) hrb
/-- C10: in the textual output modes the driver's output, read as text, is
exactly one line per instruction slot in address order, joined by single
newline characters with no trailing newline: the output bytes are the
bytes of `String.intercalate "\n" txts` where `txts` has one non-empty,
newline-free entry per processed line (whenever the codec succeeds on every
line with non-empty, newline-free renderings). -/
theorem C10_one_line_per_instruction (codec : Codec) (mode : OutputMode)
    (ign sa si : Bool) (s : String)
    (hm : mode = .hexString ∨ mode = .binString)
    (hok : ∀ l ∈ instsOf s, ∃ v, codec l = .ok v ∧ GoodVal v) :
    ∃ txts : List String,
      runEnc codec mode ign sa si s =
        .ok (strToByteArray (String.intercalate "\n" txts)) ∧
      txts.length = (instsOf s).length ∧
      ∀ t ∈ txts, t ≠ "" ∧ noNlStr t := by
  obtain ⟨lines, henc, hlen, hgood⟩ :=
    encodeLines_all_good codec ign (instsOf s) 0 hok (instsOf_no_nl s)
  refine ⟨((lines.enum).map (fun p =>
    renderLine mode sa si (ceilLog16 ((instsOf s).length * 4)) p.1 p.2)).map
      jsJoinStr, ?_, ?_, ?_⟩
  · simp only [runEnc, henc]
    rcases hm with rfl | rfl <;> rfl
  · simp [hlen]
  · intro t ht
    rcases List.mem_map.mp ht with ⟨r, hr, rfl⟩
    rcases List.mem_map.mp hr with ⟨p, hp, rfl⟩
    have hel : p.2 ∈ lines := List.snd_mem_of_mem_enum hp
    obtain ⟨hhexne, hhexnl, ⟨b, hb, hbne, hbnl⟩, hsrcnl⟩ := hgood p.2 hel
    have hinst : ∃ u, instStrOf mode p.2 = some u ∧ u ≠ "" ∧ noNlStr u := by
      rcases hm with rfl | rfl
      · exact ⟨p.2.hex, rfl, hhexne, hhexnl⟩
      · exact ⟨b, hb, hbne, hbnl⟩
    obtain ⟨u, hu, hune, hunl⟩ := hinst
    exact renderLine_good mode sa si (ceilLog16 ((instsOf s).length * 4)) p.1 p.2
      u hu hune hunl hsrcnl

/-- C10 witness: the two-line program under Hex-string mode with no
decorations. -/
theorem C10_one_line_per_instruction_witness :
    (∀ l ∈ instsOf "addi x0, x0, 0\naddi x1, x1, 1",
      ∃ v, Instruction l = .ok v ∧ GoodVal v) ∧
    ∃ txts : List String,
      runEnc Instruction .hexString false false false
          "addi x0, x0, 0\naddi x1, x1, 1" =
        .ok (strToByteArray (String.intercalate "\n" txts)) ∧
      txts.length = (instsOf "addi x0, x0, 0\naddi x1, x1, 1").length ∧
      ∀ t ∈ txts, t ≠ "" ∧ noNlStr t := by
  have hok : ∀ l ∈ instsOf "addi x0, x0, 0\naddi x1, x1, 1",
      ∃ v, Instruction l = .ok v ∧ GoodVal v := by
    intro l hl
    rw [show instsOf "addi x0, x0, 0\naddi x1, x1, 1" =
        ["addi x0, x0, 0", "addi x1, x1, 1"] from rfl] at hl
    rcases List.mem_cons.mp hl with h | h
    · subst h
      refine ⟨⟨"00000013", some "00000000000000000000000000010011"⟩, rfl, ?_, ?_, ?_⟩
      · decide
      · intro c hc; revert c; decide
      · exact ⟨"00000000000000000000000000010011", rfl, by decide,
          by intro c hc; revert c; decide⟩
    · rcases List.mem_cons.mp h with h2 | h2
      · subst h2
        refine ⟨⟨"00108093", some "00000000000100001000000010010011"⟩, rfl, ?_, ?_, ?_⟩
        · decide
        · intro c hc; revert c; decide
        · exact ⟨"00000000000100001000000010010011", rfl, by decide,
            by intro c hc; revert c; decide⟩
      · simp at h2
  exact ⟨hok, C10_one_line_per_instruction Instruction .hexString false false false
    "addi x0, x0, 0\naddi x1, x1, 1" (Or.inl rfl) hok⟩

end RISCV
